import Mathlib

/-!
Shallow embedding of the adaptive simulated-annealing optimizer of
morphologica (src/morph/Anneal.h), Lester Ingber's VFSR/ASA schedule.

The template numeric type T (float or double) is idealized as the
rationals.  The numeric-runtime pieces the algorithm calls (std::exp,
std::log, std::pow, numeric_limits) are collected in an environment
structure Flt so that every definition stays executable; theorems that
need analytic facts about the real exponential take them as explicit
hypotheses on that environment.  The random number generator rng_u and
the random draws of generate_next are passed in as explicit inputs.
-/

/-- Anneal_State from src/morph/Anneal.h: the state tag telling client code
what it needs to do next. -/
inductive Anneal_State where
  | Unknown
  | NeedToInit
  | NeedToStep
  | NeedToCompute
  | NeedToComputeSet
  | ReadyToStop
deriving DecidableEq, Repr

/-- Flt models the C++ numeric environment for the template type T: the
library functions std::exp, std::log and std::pow (pow written rpow here,
with base and exponent both rationals), together with numeric_limits
epsilon(), max() and lowest(). -/
structure Flt where
  exp : ℚ → ℚ
  log : ℚ → ℚ
  rpow : ℚ → ℚ → ℚ
  eps : ℚ
  fmax : ℚ
  flowest : ℚ

/-- Modelled from the spec: morph/vVector.h is not among the given source
files; the spec describes parameter vectors as ordered sequences of D reals
compared and bounded componentwise, so the vVector comparison v <= w is the
componentwise one. -/
def vle (v w : List ℚ) : Bool :=
  (List.zipWith (fun a b : ℚ => decide (a ≤ b)) v w).all (fun b => b)

/-- Modelled from the spec: vVector::mean, the arithmetic mean of the
entries (empty vectors give 0/0 = 0 in the rationals). -/
def vmean (v : List ℚ) : ℚ := v.sum / (v.length : ℚ)

/-- Modelled from the spec: the strict vVector comparison v < w, elementwise
like the non-strict one (the spec words the stop condition as T_k having
fallen below T_f elementwise). -/
def vlt (v w : List ℚ) : Bool :=
  (List.zipWith (fun a b : ℚ => decide (a < b)) v w).all (fun b => b)

/-- Modelled from the spec: vVector::max, the largest entry.  It is used
below only on lists of absolute values, where the default 0 for the empty
list is harmless. -/
def vmax (v : List ℚ) : ℚ := v.foldr max 0

/-- Modelled from the spec: std::vector::resize with a fill value, as
inherited by morph::vVector — keep the first sz entries, append copies of
fill when the vector is shorter than sz. -/
def resize (v : List ℚ) (sz : ℕ) (fill : ℚ) : List ℚ :=
  v.take sz ++ List.replicate (sz - v.length) fill

/-- Modelled from the spec: vVector::set_from with a scalar overwrites every
entry with that scalar. -/
def set_from (v : List ℚ) (a : ℚ) : List ℚ := List.replicate v.length a

/-- Anneal from src/morph/Anneal.h: the full state of the optimizer.  Field
defaults are the C++ member initializers.  morph::vVector members are lists
of rationals; the unsigned int counters are Nats (the run lengths of
interest stay far below 2^32, where unsigned wrap-around would set in).
param_names and the HDF5 save path play no part in the algorithm and are
not modelled. -/
structure Anneal where
  downhill : Bool := true
  temperature_ratio_scale : ℚ := 1 / 100000
  temperature_anneal_scale : ℚ := 100
  cost_parameter_scale_ratio : ℚ := 1
  acc_gen_reanneal_ratio : ℚ := 1 / 1000000
  delta_param : ℚ := 1 / 100
  f_x_best_repeat_max : ℕ := 10
  enable_reanneal : Bool := true
  reanneal_after_steps : ℕ := 100
  exit_at_T_f : Bool := false
  x_cand : List ℚ := []
  f_x_cand : ℚ := 0
  x : List ℚ := []
  f_x : ℚ := 0
  x_best : List ℚ := []
  f_x_best : ℚ := 0
  f_x_best_repeats : ℕ := 0
  x_plusdelta : List ℚ := []
  f_x_plusdelta : ℚ := 0
  num_improved : ℕ := 0
  num_worse : ℕ := 0
  num_worse_accepted : ℕ := 0
  num_accepted : ℕ := 0
  steps : ℕ := 0
  last_reanneal_steps : ℕ := 0
  param_hist_accepted : List (List ℚ) := []
  f_param_hist_accepted : List ℚ := []
  param_hist_rejected : List (List ℚ) := []
  f_param_hist_rejected : List ℚ := []
  state : Anneal_State := Anneal_State.Unknown
  D : ℕ := 0
  k : ℕ := 1
  k_f : ℕ := 0
  k_r : ℕ := 0
  T_k : List ℚ := []
  T_0 : List ℚ := []
  T_f : List ℚ := []
  m : List ℚ := []
  n : List ℚ := []
  c : List ℚ := []
  c_cost : List ℚ := []
  T_cost_0 : List ℚ := []
  T_cost : List ℚ := []
  range_min : List ℚ := []
  range_max : List ℚ := []
  rdelta : List ℚ := []
  rmeans : List ℚ := []
  tangents : List ℚ := []
deriving DecidableEq, Repr

/-- Anneal::Anneal, the constructor: D is the length of the initial
parameters; range_min and range_max are resized to D and then filled
pairwise from param_ranges.  Ranges beyond index D would be out-of-range
vVector writes in the C++ (undefined behaviour) and are modelled as
dropped; when param_ranges is shorter than D the unmatched entries keep the
resize fill 0.  No dimension-count check of any kind is performed, and
x_cand, x_best, x are set to the initial parameters unchecked against the
ranges. -/
def Anneal.construct (initial_params : List ℚ) (param_ranges : List (ℚ × ℚ)) : Anneal :=
  let D := initial_params.length
  let range_min := (List.range D).map fun i => ((param_ranges.get? i).map Prod.fst).getD 0
  let range_max := (List.range D).map fun i => ((param_ranges.get? i).map Prod.snd).getD 0
  { D := D
    range_min := range_min
    range_max := range_max
    rdelta := List.zipWith (fun b a => b - a) range_max range_min
    rmeans := List.zipWith (fun b a => (b + a) / 2) range_max range_min
    x_cand := initial_params
    x_best := initial_params
    x := initial_params
    state := Anneal_State.NeedToInit }

/-- Anneal::init: set the objective records to the most pessimistic
representable value per the downhill flag, install the initial and current
temperatures, derive m, n, c, T_f, k_f, c_cost and the cost temperatures,
and hand control back in state NeedToCompute. -/
def Anneal.init (fl : Flt) (s : Anneal) : Anneal :=
  let fxb := if s.downhill then fl.fmax else fl.flowest
  let m := set_from (resize s.m s.D 0) (-(fl.log s.temperature_ratio_scale))
  let n := set_from (resize s.n s.D 0) (fl.log s.temperature_anneal_scale)
  let c := List.zipWith (fun mi ni => mi * fl.exp (-(ni / (s.D : ℚ)))) m n
  let T_0 := resize s.T_0 s.D 1
  let c_cost := c.map (fun ci => ci * s.cost_parameter_scale_ratio)
  { s with
    f_x_best := fxb
    f_x := fxb
    f_x_cand := fxb
    x := resize s.x s.D 0
    x_cand := resize s.x_cand s.D 0
    x_best := resize s.x_best s.D 0
    T_0 := T_0
    T_k := resize s.T_k s.D 1
    m := m
    n := n
    c := c
    T_f := List.zipWith (fun t0 mi => t0 * fl.exp (-mi)) T_0 m
    k_f := (Int.toNat ⌊vmean (n.map fl.exp)⌋)
    tangents := resize s.tangents s.D 1
    c_cost := c_cost
    T_cost_0 := c_cost
    T_cost := c_cost
    state := Anneal_State.NeedToCompute }

/-- Anneal::generate_delta_parameter: try x_start*(1 + delta_param) first;
for each dimension whose result lies strictly outside its range, flip the
sign and use x_start*(1 - delta_param) there instead.  The flipped value is
returned without any further bounds check. -/
def Anneal.generate_delta_parameter (s : Anneal) (x_start : List ℚ) : List ℚ :=
  let plusminus := (List.range s.D).map fun i =>
    if x_start.getD i 0 * (1 + s.delta_param) > s.range_max.getD i 0
        ∨ x_start.getD i 0 * (1 + s.delta_param) < s.range_min.getD i 0
    then (-1 : ℚ) else 1
  (List.range s.D).map fun i =>
    x_start.getD i 0 * (1 + plusminus.getD i 0 * s.delta_param)

/-- Anneal::generate_next, body of the resampling loop: one candidate built
from one vector u of D uniform draws, via u2 = |2u-1|, sigu = sign(u-1/2)
and y_i = sigu_i * T_k_i * ((1/T_k_i + 1)^(u2_i) - 1), proposed at x + y. -/
def Anneal.gen_proposal (fl : Flt) (s : Anneal) (u : List ℚ) : List ℚ :=
  (List.range s.D).map fun i =>
    let ui := u.getD i 0
    let u2 := |2 * ui - 1|
    let sigu : ℚ := if ui - 1/2 > 0 then 1 else if ui - 1/2 < 0 then -1 else 0
    let Tki := s.T_k.getD i 0
    s.x.getD i 0 + sigu * Tki * (fl.rpow (1 / Tki + 1) u2 - 1)

/-- Anneal::generate_next, loop exit condition: x_new <= range_max and
x_new >= range_min, with the vVector comparisons componentwise. -/
def Anneal.in_bounds (s : Anneal) (v : List ℚ) : Bool :=
  vle v s.range_max && vle s.range_min v

/-- Anneal::generate_next: resample until a proposal lies within the range
bounds, then store it in x_cand.  The unbounded C++ while loop is modelled
by the list of u-draws it consumes; none signals that every provided draw
was rejected (the C++ would keep looping). -/
def Anneal.generate_next (fl : Flt) (s : Anneal) : List (List ℚ) → Option Anneal
  | [] => none
  | u :: rest =>
    let x_new := Anneal.gen_proposal fl s u
    if Anneal.in_bounds s x_new then some { s with x_cand := x_new }
    else Anneal.generate_next fl s rest

/-- Anneal::cooling_schedule: T_k := T_0 * exp(-c * k^(1/D)) and
T_cost := T_cost_0 * exp(-c_cost * num_accepted^(1/D)), both elementwise;
nothing else changes (the C++ body also prints a line of temperatures). -/
def Anneal.cooling_schedule (fl : Flt) (s : Anneal) : Anneal :=
  { s with
    T_k := List.zipWith
      (fun t0 ci => t0 * fl.exp (-(ci * fl.rpow (s.k : ℚ) (1 / (s.D : ℚ)))))
      s.T_0 s.c
    T_cost := List.zipWith
      (fun tc ci => tc * fl.exp (-(ci * fl.rpow (s.num_accepted : ℚ) (1 / (s.D : ℚ)))))
      s.T_cost_0 s.c_cost }

/-- Anneal::acceptance_check, the candidate classification: better per the
downhill flag when f_x_cand < f_x (downhill) or f_x_cand > f_x (uphill). -/
def Anneal.candidate_is_better (s : Anneal) : Bool :=
  (s.downhill && decide (s.f_x_cand < s.f_x))
    || (!s.downhill && decide (s.f_x_cand > s.f_x))

/-- Anneal::acceptance_check, the acceptance probability
p = exp(-(f_x_cand - f_x)/(epsilon + mean(T_cost))).  The C++ reads these
fields after incrementing num_improved or num_worse, which changes none of
them, so p is computed here from the incoming state. -/
def Anneal.acceptance_prob (fl : Flt) (s : Anneal) : ℚ :=
  fl.exp (-(s.f_x_cand - s.f_x) / (fl.eps + vmean s.T_cost))

/-- Anneal::acceptance_check, accepted branch: move x_cand/f_x_cand into
x/f_x, append them to the accepted history, bump f_x_best_repeats on an
exact tie with the best objective, take over the best records when
f_x_cand < f_x_best (resetting the repeat counter), and count the
acceptance. -/
def Anneal.accept_candidate (s : Anneal) : Anneal :=
  let s3 := { s with
    x := s.x_cand
    f_x := s.f_x_cand
    param_hist_accepted := s.param_hist_accepted ++ [s.x_cand]
    f_param_hist_accepted := s.f_param_hist_accepted ++ [s.f_x_cand] }
  let s4 := { s3 with
    f_x_best_repeats :=
      s3.f_x_best_repeats + (if s3.f_x_cand = s3.f_x_best then 1 else 0) }
  let s5 := if s4.f_x_cand < s4.f_x_best
            then { s4 with
              f_x_best_repeats := 0
              x_best := s4.x_cand
              f_x_best := s4.f_x_cand }
            else s4
  { s5 with num_accepted := s5.num_accepted + 1 }

/-- Anneal::acceptance_check, rejected branch: append the unchanged current
point and objective to the rejected history. -/
def Anneal.reject_candidate (s : Anneal) : Anneal :=
  { s with
    param_hist_rejected := s.param_hist_rejected ++ [s.x]
    f_param_hist_rejected := s.f_param_hist_rejected ++ [s.f_x] }

/-- Anneal::acceptance_check with the uniform draw u of rng_u.get() passed
in: classify the candidate as better or worse per the downhill flag,
compute p, accept iff p > u, and update x, f_x, the best-so-far records,
the histories and the statistics exactly as the C++ does. -/
def Anneal.acceptance_check (fl : Flt) (u : ℚ) (s : Anneal) : Anneal :=
  let better := Anneal.candidate_is_better s
  let s1 := if better then { s with num_improved := s.num_improved + 1 }
            else { s with num_worse := s.num_worse + 1 }
  let accepted : Bool := decide (Anneal.acceptance_prob fl s > u)
  let s2 := if !better && accepted
            then { s1 with num_worse_accepted := s1.num_worse_accepted + 1 }
            else s1
  if accepted then Anneal.accept_candidate s2 else Anneal.reject_candidate s2

/-- Anneal::accepted_vs_generated: num_accepted over num_improved +
num_worse.  In the rationals a zero denominator gives 0; the C++ float
division would give NaN or infinity there, a state the documented protocol
never reaches. -/
def Anneal.accepted_vs_generated (s : Anneal) : ℚ :=
  (s.num_accepted : ℚ) / ((s.num_improved : ℚ) + (s.num_worse : ℚ))

/-- Anneal::reanneal_test: false when fewer than 10 steps have passed since
the last reanneal, and false when k_r has not yet reached
reanneal_after_steps while the accepted:generated ratio is still at or
above the threshold.  Otherwise restore x to x_best and f_x to f_x_best,
fill x_plusdelta from generate_delta_parameter, and return true. -/
def Anneal.reanneal_test (s : Anneal) : Bool × Anneal :=
  if s.steps - s.last_reanneal_steps < 10 then (false, s)
  else if s.k_r < s.reanneal_after_steps
      ∧ Anneal.accepted_vs_generated s ≥ s.acc_gen_reanneal_ratio then (false, s)
  else
    let s1 := { s with x := s.x_best, f_x := s.f_x_best }
    (true, { s1 with x_plusdelta := Anneal.generate_delta_parameter s1 s1.x })

/-- Anneal::reset_stats, called at the end of a completed reanneal. -/
def Anneal.reset_stats (s : Anneal) : Anneal :=
  { s with
    num_improved := 0
    num_worse := 0
    num_worse_accepted := 0
    num_accepted := 0
    k_r := 0 }

/-- Anneal::complete_reanneal: record last_reanneal_steps, estimate the
tangents (f_x_plusdelta - f_x) / (x_plusdelta - x + epsilon), throw on a
non-finite tangent — in exact arithmetic the division is non-finite exactly
when a denominator is zero — and on a zero tangent double delta_param and
defer.  Otherwise rescale T_k to T_re = |T_k * max_tangent / tangents|,
recompute k from the inverse cooling formula when T_re is strictly positive
(throw otherwise), and reset the acceptance statistics. -/
def Anneal.complete_reanneal (fl : Flt) (s : Anneal) : Except String Anneal :=
  let s0 := { s with last_reanneal_steps := s.steps }
  let denoms := (List.range s0.D).map fun i =>
    s0.x_plusdelta.getD i 0 - s0.x.getD i 0 + fl.eps
  if denoms.any (fun d => d = 0) then Except.error "NaN or inf in tangents"
  else
    let tangents := denoms.map fun d => (s0.f_x_plusdelta - s0.f_x) / d
    let s1 := { s0 with tangents := tangents }
    if tangents.any (fun t => t = 0) then
      Except.ok { s1 with delta_param := s1.delta_param * 2 }
    else
      let max_tangent := vmax (tangents.map (fun t => |t|))
      let T_re := (List.range s1.D).map fun i =>
        |s1.T_k.getD i 0 * (max_tangent / tangents.getD i 0)|
      if T_re.all (fun t => 0 < t) then
        let k_re := Int.toNat
          ⌊vmean ((List.range s1.D).map fun i =>
            (fl.log (s1.T_0.getD i 0 / T_re.getD i 0) / s1.c.getD i 0) ^ s1.D)⌋
        Except.ok (Anneal.reset_stats { s1 with k := k_re, T_k := T_re })
      else Except.error "Cant update k based on new temp, as it is <=0"

/-- Anneal::stop_check: stop when exit_at_T_f is set and T_k has fallen
below T_f (componentwise), when T_k[0] or T_cost[0] has fallen to epsilon,
or when the best objective has repeated f_x_best_repeat_max times. -/
def Anneal.stop_check (fl : Flt) (s : Anneal) : Bool :=
  if s.exit_at_T_f && vlt s.T_k s.T_f then true
  else if s.T_k.getD 0 0 ≤ fl.eps then true
  else if s.T_cost.getD 0 0 ≤ fl.eps then true
  else decide (s.f_x_best_repeats ≥ s.f_x_best_repeat_max)

/-- StepInput: everything outside the Anneal object that one call to step()
consumes — the objective values the client wrote into the public fields
since the last call, the uniform draw of rng_u.get() inside
acceptance_check, and the uniform draw vectors consumed by the resampling
loop of generate_next. -/
structure StepInput where
  f_x_cand : ℚ := 0
  f_x : ℚ := 0
  f_x_plusdelta : ℚ := 0
  u : ℚ := 0
  gen_draws : List (List ℚ) := []
deriving DecidableEq, Repr

/-- The per-step caller contract: in state NeedToCompute the client stores
the objective of x_cand into f_x_cand; in state NeedToComputeSet it stores
the objectives of x and x_plusdelta into f_x and f_x_plusdelta; in any
other state it writes nothing. -/
def Anneal.install_input (s : Anneal) (inp : StepInput) : Anneal :=
  match s.state with
  | Anneal_State.NeedToCompute => { s with f_x_cand := inp.f_x_cand }
  | Anneal_State.NeedToComputeSet =>
      { s with f_x := inp.f_x, f_x_plusdelta := inp.f_x_plusdelta }
  | _ => s

/-- The state at the top of Anneal::step, after the client wrote its
objective values and the step counter was incremented. -/
def Anneal.installed (s : Anneal) (inp : StepInput) : Anneal :=
  let s0 := Anneal.install_input s inp
  { s0 with steps := s0.steps + 1 }

/-- The body of Anneal::step between the stop_check early return and the
reanneal test: the conditional complete_reanneal (whose throw is modelled
as none), the cooling schedule, the acceptance check, the candidate
generation (none when every provided draw was rejected) and the increments
of k and k_r.  The result is the state reanneal_test runs on. -/
def Anneal.step_core (fl : Flt) (s : Anneal) (inp : StepInput) : Option Anneal :=
  let after_reanneal : Option Anneal :=
    if s.state = Anneal_State.NeedToComputeSet then
      match Anneal.complete_reanneal fl s with
      | Except.ok s1 => some { s1 with state := Anneal_State.NeedToStep }
      | Except.error _ => none
    else some s
  after_reanneal.bind fun s1 =>
    (Anneal.generate_next fl
        (Anneal.acceptance_check fl inp.u (Anneal.cooling_schedule fl s1))
        inp.gen_draws).map fun s2 =>
      { s2 with k := s2.k + 1, k_r := s2.k_r + 1 }

/-- The tail of Anneal::step: run reanneal_test when reannealing is
enabled, then signal NeedToComputeSet or NeedToCompute. -/
def Anneal.step_finish (s : Anneal) : Anneal :=
  let pr := if s.enable_reanneal then Anneal.reanneal_test s else (false, s)
  if pr.1 then { pr.2 with state := Anneal_State.NeedToComputeSet }
  else { pr.2 with state := Anneal_State.NeedToCompute }

/-- Anneal::step: increment steps, stop when stop_check says so, otherwise
run the core of the iteration and the reanneal test.  none models the two
ways the C++ body fails to return normally: a throw out of
complete_reanneal, or the resampling loop of generate_next never
terminating (here: exhausting its provided draws). -/
def Anneal.step (fl : Flt) (s : Anneal) (inp : StepInput) : Option Anneal :=
  let s0 := Anneal.installed s inp
  if Anneal.stop_check fl s0 then some { s0 with state := Anneal_State.ReadyToStop }
  else (Anneal.step_core fl s0 inp).map Anneal.step_finish

/-- A whole run: fold step over a list of per-step inputs. -/
def Anneal.run_list (fl : Flt) (s : Anneal) : List StepInput → Option Anneal
  | [] => some s
  | inp :: rest => (Anneal.step fl s inp).bind fun s1 => Anneal.run_list fl s1 rest

/-- The statistics fields as construction leaves them, whatever tunable
parameters the client adjusts before init(): all counters and histories
zero or empty. -/
def Anneal.fresh_counters (s : Anneal) : Prop :=
  s.num_improved = 0 ∧ s.num_worse = 0 ∧ s.num_worse_accepted = 0 ∧
  s.num_accepted = 0 ∧ s.steps = 0 ∧ s.last_reanneal_steps = 0 ∧
  s.f_x_best_repeats = 0 ∧ s.state = Anneal_State.NeedToInit

/-- The states the documented protocol can reach: init() on a freshly
constructed object (with any tunables), then any number of successful
step() calls with arbitrary client inputs. -/
inductive Anneal.Reachable (fl : Flt) : Anneal → Prop where
  | base (s : Anneal) : Anneal.fresh_counters s → Anneal.Reachable fl (Anneal.init fl s)
  | next (s : Anneal) (inp : StepInput) (s1 : Anneal) : Anneal.Reachable fl s →
      Anneal.step fl s inp = some s1 → Anneal.Reachable fl s1

theorem getD_zipWith (f : ℚ → ℚ → ℚ) (v w : List ℚ) (i : ℕ)
    (hv : i < v.length) (hw : i < w.length) :
    (List.zipWith f v w).getD i 0 = f (v.getD i 0) (w.getD i 0) := by
  rw [List.getD_eq_getElem _ _ (by simp; omega), List.getD_eq_getElem _ _ hv,
    List.getD_eq_getElem _ _ hw]
  exact List.getElem_zipWith

theorem getD_rangeMap (g : ℕ → ℚ) (d i : ℕ) (h : i < d) :
    ((List.range d).map g).getD i 0 = g i := by
  rw [List.getD_eq_getElem _ _ (by simpa using h)]
  simp

theorem getD_replicate (a : ℚ) (d i : ℕ) (h : i < d) :
    (List.replicate d a).getD i 0 = a := by
  rw [List.getD_eq_getElem _ _ (by simpa using h)]
  simp

theorem getD_map_fn (g : ℚ → ℚ) (v : List ℚ) (i : ℕ) (h : i < v.length) :
    (v.map g).getD i 0 = g (v.getD i 0) := by
  rw [List.getD_eq_getElem _ _ (by simpa using h), List.getD_eq_getElem _ _ h]
  simp

theorem vle_getD (v w : List ℚ) (h : vle v w = true) (i : ℕ)
    (hv : i < v.length) (hw : i < w.length) : v.getD i 0 ≤ w.getD i 0 := by
  have hm : i < (List.zipWith (fun a b : ℚ => decide (a ≤ b)) v w).length := by
    simp; omega
  have := (List.all_eq_true.mp h) _ (List.getElem_mem hm)
  rw [List.getElem_zipWith] at this
  rw [List.getD_eq_getElem _ _ hv, List.getD_eq_getElem _ _ hw]
  exact of_decide_eq_true this

/-- C4.  Cooling schedule correctness: cooling_schedule sets every dimension
of T_k to T_0[i] * exp(-c[i] * k^(1/D)) as a function of the current step
count k, sets T_cost to T_cost_0 * exp(-c_cost * num_accepted^(1/D)) as a
function of the current acceptance count, and changes nothing else (the
final conjunct says the result is s with only T_k and T_cost replaced). -/
theorem anneal_cooling_schedule_updates_only_temperatures (fl : Flt) (s : Anneal) (i : ℕ)
    (h0 : i < s.T_0.length) (hc : i < s.c.length)
    (h1 : i < s.T_cost_0.length) (h2 : i < s.c_cost.length) :
    (Anneal.cooling_schedule fl s).T_k.getD i 0 =
      s.T_0.getD i 0 * fl.exp (-(s.c.getD i 0 * fl.rpow (s.k : ℚ) (1 / (s.D : ℚ)))) ∧
    (Anneal.cooling_schedule fl s).T_cost.getD i 0 =
      s.T_cost_0.getD i 0 *
        fl.exp (-(s.c_cost.getD i 0 * fl.rpow (s.num_accepted : ℚ) (1 / (s.D : ℚ)))) ∧
    Anneal.cooling_schedule fl s =
      { s with
        T_k := (Anneal.cooling_schedule fl s).T_k
        T_cost := (Anneal.cooling_schedule fl s).T_cost } :=
  ⟨getD_zipWith _ s.T_0 s.c i h0 hc, getD_zipWith _ s.T_cost_0 s.c_cost i h1 h2, rfl⟩

def fl4 : Flt :=
  { exp := fun q => q + 10, log := fun q => q, rpow := fun a b => a * b,
    eps := 1, fmax := 5, flowest := -5 }

def s4 : Anneal :=
  { T_0 := [2], c := [3], T_cost_0 := [5], c_cost := [7], k := 4, num_accepted := 9, D := 1 }

/-- Witness for C4 at a concrete one-dimensional state. -/
theorem anneal_cooling_schedule_witness :
    (Anneal.cooling_schedule fl4 s4).T_k.getD 0 0 =
      s4.T_0.getD 0 0 * fl4.exp (-(s4.c.getD 0 0 * fl4.rpow (s4.k : ℚ) (1 / (s4.D : ℚ)))) ∧
    (Anneal.cooling_schedule fl4 s4).T_cost.getD 0 0 =
      s4.T_cost_0.getD 0 0 *
        fl4.exp (-(s4.c_cost.getD 0 0 * fl4.rpow (s4.num_accepted : ℚ) (1 / (s4.D : ℚ)))) ∧
    Anneal.cooling_schedule fl4 s4 =
      { s4 with
        T_k := (Anneal.cooling_schedule fl4 s4).T_k
        T_cost := (Anneal.cooling_schedule fl4 s4).T_cost } :=
  anneal_cooling_schedule_updates_only_temperatures fl4 s4 0
    (by decide) (by decide) (by decide) (by decide)

theorem resize_length (v : List ℚ) (sz : ℕ) (f : ℚ) : (resize v sz f).length = sz := by
  simp [resize]; omega

theorem init_m_eq (fl : Flt) (s : Anneal) :
    (Anneal.init fl s).m = List.replicate s.D (-(fl.log s.temperature_ratio_scale)) := by
  show set_from (resize s.m s.D 0) _ = _
  rw [set_from, resize_length]

theorem init_n_eq (fl : Flt) (s : Anneal) :
    (Anneal.init fl s).n = List.replicate s.D (fl.log s.temperature_anneal_scale) := by
  show set_from (resize s.n s.D 0) _ = _
  rw [set_from, resize_length]

/-- C7.  init() postcondition: called in state NeedToInit, init sets f_x,
f_x_best and f_x_cand to the most pessimistic representable objective value
(numeric_limits max when downhill, numeric_limits lowest otherwise),
establishes m = -log(temperature_ratio_scale), n =
log(temperature_anneal_scale), c = m * exp(-n/D) and T_f = T_0 * exp(-m)
in every dimension, and leaves the object in state NeedToCompute. -/
theorem anneal_init_postcondition (fl : Flt) (s : Anneal)
    (_hst : s.state = Anneal_State.NeedToInit) :
    (Anneal.init fl s).f_x = (if s.downhill then fl.fmax else fl.flowest) ∧
    (Anneal.init fl s).f_x_best = (if s.downhill then fl.fmax else fl.flowest) ∧
    (Anneal.init fl s).f_x_cand = (if s.downhill then fl.fmax else fl.flowest) ∧
    (∀ i, i < s.D →
      (Anneal.init fl s).m.getD i 0 = -(fl.log s.temperature_ratio_scale) ∧
      (Anneal.init fl s).n.getD i 0 = fl.log s.temperature_anneal_scale ∧
      (Anneal.init fl s).c.getD i 0 =
        (Anneal.init fl s).m.getD i 0 *
          fl.exp (-((Anneal.init fl s).n.getD i 0 / (s.D : ℚ))) ∧
      (Anneal.init fl s).T_f.getD i 0 =
        (Anneal.init fl s).T_0.getD i 0 * fl.exp (-((Anneal.init fl s).m.getD i 0))) ∧
    (Anneal.init fl s).state = Anneal_State.NeedToCompute := by
  refine ⟨rfl, rfl, rfl, fun i hi => ?_, rfl⟩
  have hm := init_m_eq fl s
  have hn := init_n_eq fl s
  have hmd : (Anneal.init fl s).m.getD i 0 = -(fl.log s.temperature_ratio_scale) := by
    rw [hm, getD_replicate _ _ _ hi]
  have hnd : (Anneal.init fl s).n.getD i 0 = fl.log s.temperature_anneal_scale := by
    rw [hn, getD_replicate _ _ _ hi]
  have hc0 : (Anneal.init fl s).c =
      List.zipWith (fun mi ni => mi * fl.exp (-(ni / (s.D : ℚ))))
        (set_from (resize s.m s.D 0) (-(fl.log s.temperature_ratio_scale)))
        (set_from (resize s.n s.D 0) (fl.log s.temperature_anneal_scale)) := rfl
  rw [set_from, set_from, resize_length, resize_length] at hc0
  have hTf0 : (Anneal.init fl s).T_f =
      List.zipWith (fun t0 mi => t0 * fl.exp (-mi)) (resize s.T_0 s.D 1)
        (set_from (resize s.m s.D 0) (-(fl.log s.temperature_ratio_scale))) := rfl
  rw [set_from, resize_length] at hTf0
  have hT0 : (Anneal.init fl s).T_0 = resize s.T_0 s.D 1 := rfl
  refine ⟨hmd, hnd, ?_, ?_⟩
  · rw [hmd, hnd, hc0,
      getD_zipWith _ _ _ i (by simpa using hi) (by simpa using hi),
      getD_replicate _ _ _ hi, getD_replicate _ _ _ hi]
  · rw [hmd, hT0, hTf0,
      getD_zipWith _ _ _ i (by rw [resize_length]; exact hi) (by simpa using hi),
      getD_replicate _ _ _ hi]

def s7 : Anneal :=
  { state := Anneal_State.NeedToInit, D := 1, downhill := true,
    temperature_ratio_scale := 3, temperature_anneal_scale := 4 }

/-- Witness for C7 at a concrete one-dimensional state in NeedToInit. -/
theorem anneal_init_postcondition_witness :
    (Anneal.init fl4 s7).f_x = (if s7.downhill then fl4.fmax else fl4.flowest) ∧
    (Anneal.init fl4 s7).f_x_best = (if s7.downhill then fl4.fmax else fl4.flowest) ∧
    (Anneal.init fl4 s7).f_x_cand = (if s7.downhill then fl4.fmax else fl4.flowest) ∧
    (∀ i, i < s7.D →
      (Anneal.init fl4 s7).m.getD i 0 = -(fl4.log s7.temperature_ratio_scale) ∧
      (Anneal.init fl4 s7).n.getD i 0 = fl4.log s7.temperature_anneal_scale ∧
      (Anneal.init fl4 s7).c.getD i 0 =
        (Anneal.init fl4 s7).m.getD i 0 *
          fl4.exp (-((Anneal.init fl4 s7).n.getD i 0 / (s7.D : ℚ))) ∧
      (Anneal.init fl4 s7).T_f.getD i 0 =
        (Anneal.init fl4 s7).T_0.getD i 0 * fl4.exp (-((Anneal.init fl4 s7).m.getD i 0))) ∧
    (Anneal.init fl4 s7).state = Anneal_State.NeedToCompute :=
  anneal_init_postcondition fl4 s7 (by decide)

/-- C5.  Reanneal trigger condition: reanneal_test returns true exactly when
at least 10 steps have elapsed since the last reanneal and either k_r has
reached reanneal_after_steps or the accepted:generated ratio has dropped
below acc_gen_reanneal_ratio; and whenever it returns true, the state it
hands back has x restored to x_best, f_x restored to f_x_best, and
x_plusdelta filled by generate_delta_parameter at the restored point. -/
theorem anneal_reanneal_test_spec (s : Anneal) :
    ((Anneal.reanneal_test s).1 = true ↔
      (10 ≤ s.steps - s.last_reanneal_steps ∧
        (s.reanneal_after_steps ≤ s.k_r ∨
          Anneal.accepted_vs_generated s < s.acc_gen_reanneal_ratio))) ∧
    ((Anneal.reanneal_test s).1 = true →
      (Anneal.reanneal_test s).2.x = s.x_best ∧
      (Anneal.reanneal_test s).2.f_x = s.f_x_best ∧
      (Anneal.reanneal_test s).2.x_plusdelta =
        Anneal.generate_delta_parameter
          { s with x := s.x_best, f_x := s.f_x_best } s.x_best) := by
  unfold Anneal.reanneal_test
  split
  · rename_i h
    simp only [Prod.fst]
    constructor
    · constructor
      · intro hf; cases hf
      · intro ⟨h10, _⟩; omega
    · intro hf; cases hf
  · rename_i h
    split
    · rename_i h2
      simp only [Prod.fst]
      constructor
      · constructor
        · intro hf; cases hf
        · intro ⟨h10, hor⟩
          rcases hor with hk | hr
          · exact absurd h2.1 (by omega)
          · exact absurd h2.2 (by exact not_le.mpr hr)
      · intro hf; cases hf
    · rename_i h2
      push_neg at h2
      refine ⟨⟨fun _ => ⟨by omega, ?_⟩, fun _ => rfl⟩, fun _ => ⟨rfl, rfl, rfl⟩⟩
      by_cases hk : s.k_r < s.reanneal_after_steps
      · exact Or.inr (h2 hk)
      · exact Or.inl (by omega)

/-- C9 (amended).  Reanneal perturbation sign choice: each component of
generate_delta_parameter is x[i]*(1+delta_param) when that value lies
within the range, and x[i]*(1-delta_param) otherwise; the returned
component is guaranteed to lie within [range_min[i], range_max[i]] only
when at least one of the two candidate values does (the code never checks
the fallback value, so when both candidates are out of range the returned
component is out of range too). -/
theorem anneal_generate_delta_parameter_sign_choice (s : Anneal) (x_start : List ℚ)
    (i : ℕ) (hi : i < s.D) :
    ((Anneal.generate_delta_parameter s x_start).getD i 0 =
      if x_start.getD i 0 * (1 + s.delta_param) > s.range_max.getD i 0
          ∨ x_start.getD i 0 * (1 + s.delta_param) < s.range_min.getD i 0
      then x_start.getD i 0 * (1 - s.delta_param)
      else x_start.getD i 0 * (1 + s.delta_param)) ∧
    ((s.range_min.getD i 0 ≤ x_start.getD i 0 * (1 + s.delta_param) ∧
        x_start.getD i 0 * (1 + s.delta_param) ≤ s.range_max.getD i 0) ∨
      (s.range_min.getD i 0 ≤ x_start.getD i 0 * (1 - s.delta_param) ∧
        x_start.getD i 0 * (1 - s.delta_param) ≤ s.range_max.getD i 0) →
      s.range_min.getD i 0 ≤ (Anneal.generate_delta_parameter s x_start).getD i 0 ∧
      (Anneal.generate_delta_parameter s x_start).getD i 0 ≤ s.range_max.getD i 0) := by
  have hval : (Anneal.generate_delta_parameter s x_start).getD i 0 =
      x_start.getD i 0 *
        (1 + (if x_start.getD i 0 * (1 + s.delta_param) > s.range_max.getD i 0
              ∨ x_start.getD i 0 * (1 + s.delta_param) < s.range_min.getD i 0
            then (-1 : ℚ) else 1) * s.delta_param) := by
    unfold Anneal.generate_delta_parameter
    rw [getD_rangeMap _ _ _ hi, getD_rangeMap _ _ _ hi]
  constructor
  · rw [hval]
    split
    · ring
    · ring
  · intro hin
    rw [hval]
    split
    · rename_i hcond
      rcases hin with hplus | hminus
      · rcases hcond with hgt | hlt
        · exact absurd hplus.2 (not_le.mpr hgt)
        · exact absurd hplus.1 (not_le.mpr hlt)
      · constructor
        · calc s.range_min.getD i 0 ≤ x_start.getD i 0 * (1 - s.delta_param) := hminus.1
            _ = x_start.getD i 0 * (1 + (-1) * s.delta_param) := by ring
        · calc x_start.getD i 0 * (1 + (-1) * s.delta_param)
              = x_start.getD i 0 * (1 - s.delta_param) := by ring
            _ ≤ s.range_max.getD i 0 := hminus.2
    · rename_i hcond
      push_neg at hcond
      constructor
      · calc s.range_min.getD i 0 ≤ x_start.getD i 0 * (1 + s.delta_param) := hcond.2
          _ = x_start.getD i 0 * (1 + 1 * s.delta_param) := by ring
      · calc x_start.getD i 0 * (1 + 1 * s.delta_param)
            = x_start.getD i 0 * (1 + s.delta_param) := by ring
          _ ≤ s.range_max.getD i 0 := hcond.1

def s9 : Anneal := { D := 1, range_min := [1], range_max := [101/100], delta_param := 1/10 }

/-- Counterexample for C9 as stated: with range [1, 101/100], delta_param
1/10 and the in-range point 201/200, both 201/200 * (1+1/10) and
201/200 * (1-1/10) are out of range, and generate_delta_parameter returns
the latter, below range_min. -/
theorem anneal_generate_delta_parameter_counterexample :
    s9.range_min.getD 0 0 ≤ (201/200 : ℚ) ∧ (201/200 : ℚ) ≤ s9.range_max.getD 0 0 ∧
    (Anneal.generate_delta_parameter s9 [201/200]).getD 0 0 < s9.range_min.getD 0 0 := by
  with_unfolding_all decide

/-- Witness for the amended C9 at a concrete input. -/
theorem anneal_generate_delta_parameter_witness :
    ((Anneal.generate_delta_parameter s9 [1]).getD 0 0 =
      if (1 : ℚ) * (1 + s9.delta_param) > s9.range_max.getD 0 0
          ∨ (1 : ℚ) * (1 + s9.delta_param) < s9.range_min.getD 0 0
      then (1 : ℚ) * (1 - s9.delta_param)
      else (1 : ℚ) * (1 + s9.delta_param)) ∧
    ((s9.range_min.getD 0 0 ≤ (1 : ℚ) * (1 + s9.delta_param) ∧
        (1 : ℚ) * (1 + s9.delta_param) ≤ s9.range_max.getD 0 0) ∨
      (s9.range_min.getD 0 0 ≤ (1 : ℚ) * (1 - s9.delta_param) ∧
        (1 : ℚ) * (1 - s9.delta_param) ≤ s9.range_max.getD 0 0) →
      s9.range_min.getD 0 0 ≤ (Anneal.generate_delta_parameter s9 [1]).getD 0 0 ∧
      (Anneal.generate_delta_parameter s9 [1]).getD 0 0 ≤ s9.range_max.getD 0 0) := by
  have h := anneal_generate_delta_parameter_sign_choice s9 [1] 0 (by decide)
  simpa using h

/-- C8 (amended).  The constructor performs no dimension-count validation:
whatever the two lengths are, it returns a usable object in state
NeedToInit with D taken from the initial parameter vector, and when
param_ranges is shorter than the parameter vector the unmatched bounds are
the resize fill value 0. -/
theorem anneal_construct_no_dimension_check (initial_params : List ℚ)
    (param_ranges : List (ℚ × ℚ)) (i : ℕ)
    (hmiss : param_ranges.length ≤ i) :
    (Anneal.construct initial_params param_ranges).state = Anneal_State.NeedToInit ∧
    (Anneal.construct initial_params param_ranges).D = initial_params.length ∧
    (Anneal.construct initial_params param_ranges).x = initial_params ∧
    (Anneal.construct initial_params param_ranges).range_min.getD i 0 = 0 ∧
    (Anneal.construct initial_params param_ranges).range_max.getD i 0 = 0 := by
  refine ⟨rfl, rfl, rfl, ?_, ?_⟩
  · by_cases hi : i < initial_params.length
    · show (((List.range initial_params.length).map
        fun j => ((param_ranges.get? j).map Prod.fst).getD 0).getD i 0) = 0
      rw [getD_rangeMap _ _ _ hi, List.get?_eq_none.mpr hmiss]
      rfl
    · show (((List.range initial_params.length).map
        fun j => ((param_ranges.get? j).map Prod.fst).getD 0).getD i 0) = 0
      rw [List.getD_eq_default]
      simpa using hi
  · by_cases hi : i < initial_params.length
    · show (((List.range initial_params.length).map
        fun j => ((param_ranges.get? j).map Prod.snd).getD 0).getD i 0) = 0
      rw [getD_rangeMap _ _ _ hi, List.get?_eq_none.mpr hmiss]
      rfl
    · show (((List.range initial_params.length).map
        fun j => ((param_ranges.get? j).map Prod.snd).getD 0).getD i 0) = 0
      rw [List.getD_eq_default]
      simpa using hi

/-- Counterexample for C8 as stated: a two-parameter initial point with a
single range pair — the dimension counts mismatch, yet construction
produces an object in state NeedToInit (no construction error exists in the
code), with the second dimension silently given the bounds [0, 0]. -/
theorem anneal_construct_mismatch_counterexample :
    ([(1 : ℚ), 2].length ≠ [((0 : ℚ), (5 : ℚ))].length) ∧
    (Anneal.construct [1, 2] [((0 : ℚ), 5)]).state = Anneal_State.NeedToInit ∧
    (Anneal.construct [1, 2] [((0 : ℚ), 5)]).range_min.getD 1 0 = 0 ∧
    (Anneal.construct [1, 2] [((0 : ℚ), 5)]).range_max.getD 1 0 = 0 := by
  with_unfolding_all decide

/-- Witness for the amended C8 at the same concrete mismatched input. -/
theorem anneal_construct_no_dimension_check_witness :
    (Anneal.construct [(1 : ℚ), 2] [((0 : ℚ), 5)]).state = Anneal_State.NeedToInit ∧
    (Anneal.construct [(1 : ℚ), 2] [((0 : ℚ), 5)]).D = [(1 : ℚ), 2].length ∧
    (Anneal.construct [(1 : ℚ), 2] [((0 : ℚ), 5)]).x = [(1 : ℚ), 2] ∧
    (Anneal.construct [(1 : ℚ), 2] [((0 : ℚ), 5)]).range_min.getD 1 0 = 0 ∧
    (Anneal.construct [(1 : ℚ), 2] [((0 : ℚ), 5)]).range_max.getD 1 0 = 0 :=
  anneal_construct_no_dimension_check [1, 2] [((0 : ℚ), 5)] 1 (by decide)

theorem reject_candidate_eq (s : Anneal) : Anneal.reject_candidate s =
    { s with
      param_hist_rejected := s.param_hist_rejected ++ [s.x]
      f_param_hist_rejected := s.f_param_hist_rejected ++ [s.f_x] } := rfl

theorem accept_candidate_eq (s : Anneal) : Anneal.accept_candidate s =
    if s.f_x_cand < s.f_x_best
    then { s with
           x := s.x_cand
           f_x := s.f_x_cand
           param_hist_accepted := s.param_hist_accepted ++ [s.x_cand]
           f_param_hist_accepted := s.f_param_hist_accepted ++ [s.f_x_cand]
           f_x_best_repeats := 0
           x_best := s.x_cand
           f_x_best := s.f_x_cand
           num_accepted := s.num_accepted + 1 }
    else { s with
           x := s.x_cand
           f_x := s.f_x_cand
           param_hist_accepted := s.param_hist_accepted ++ [s.x_cand]
           f_param_hist_accepted := s.f_param_hist_accepted ++ [s.f_x_cand]
           f_x_best_repeats :=
             s.f_x_best_repeats + (if s.f_x_cand = s.f_x_best then 1 else 0)
           num_accepted := s.num_accepted + 1 } := by
  unfold Anneal.accept_candidate
  dsimp only
  split
  · rfl
  · rfl

theorem acceptance_check_cases (fl : Flt) (u : ℚ) (s : Anneal) :
    (Anneal.acceptance_prob fl s > u ∧ Anneal.candidate_is_better s = true ∧
      Anneal.acceptance_check fl u s =
        Anneal.accept_candidate { s with num_improved := s.num_improved + 1 }) ∨
    (Anneal.acceptance_prob fl s > u ∧ Anneal.candidate_is_better s = false ∧
      Anneal.acceptance_check fl u s =
        Anneal.accept_candidate
          { s with
            num_worse := s.num_worse + 1
            num_worse_accepted := s.num_worse_accepted + 1 }) ∨
    (¬(Anneal.acceptance_prob fl s > u) ∧ Anneal.candidate_is_better s = true ∧
      Anneal.acceptance_check fl u s =
        Anneal.reject_candidate { s with num_improved := s.num_improved + 1 }) ∨
    (¬(Anneal.acceptance_prob fl s > u) ∧ Anneal.candidate_is_better s = false ∧
      Anneal.acceptance_check fl u s =
        Anneal.reject_candidate { s with num_worse := s.num_worse + 1 }) := by
  by_cases hacc : Anneal.acceptance_prob fl s > u
  · by_cases hb : Anneal.candidate_is_better s
    · exact Or.inl ⟨hacc, hb, by unfold Anneal.acceptance_check; simp [hb, hacc]⟩
    · refine Or.inr (Or.inl ⟨hacc, by simpa using hb, ?_⟩)
      unfold Anneal.acceptance_check
      simp only [Bool.not_eq_true] at hb
      simp [hb, hacc]
  · by_cases hb : Anneal.candidate_is_better s
    · exact Or.inr (Or.inr (Or.inl ⟨hacc, hb, by
        unfold Anneal.acceptance_check; simp [hb, hacc]⟩))
    · refine Or.inr (Or.inr (Or.inr ⟨hacc, by simpa using hb, ?_⟩))
      unfold Anneal.acceptance_check
      simp only [Bool.not_eq_true] at hb
      simp [hb, hacc]

/-- C2 (amended).  In downhill mode a strictly improving candidate is
accepted whatever the uniform draw u in [0,1): the argument of the
exponential is strictly positive, so p = exp(...) exceeds 1 and hence u.
(In uphill mode an improving candidate makes the argument negative, p
falls below 1 and large draws reject it — see the counterexample.)  The
analytic facts needed about std::exp are the hypothesis hexp. -/
theorem anneal_improving_accepted_downhill (fl : Flt) (u : ℚ) (s : Anneal)
    (hd : s.downhill = true) (himp : s.f_x_cand < s.f_x)
    (heps : 0 < fl.eps) (hT : 0 ≤ vmean s.T_cost)
    (hexp : ∀ q, 0 < q → 1 < fl.exp q) (hu : u < 1) :
    (Anneal.acceptance_check fl u s).x = s.x_cand ∧
    (Anneal.acceptance_check fl u s).f_x = s.f_x_cand := by
  have hb : Anneal.candidate_is_better s = true := by
    unfold Anneal.candidate_is_better
    simp [hd, himp]
  have hacc : Anneal.acceptance_prob fl s > u := by
    have h1 : 1 < Anneal.acceptance_prob fl s := by
      apply hexp
      apply div_pos (by linarith) (by linarith)
    exact lt_trans hu h1
  rcases acceptance_check_cases fl u s with ⟨_, _, heq⟩ | ⟨_, hb2, _⟩ |
    ⟨hn, _, _⟩ | ⟨hn, _, _⟩
  · rw [heq, accept_candidate_eq]
    split
    · exact ⟨rfl, rfl⟩
    · exact ⟨rfl, rfl⟩
  · rw [hb] at hb2; cases hb2
  · exact absurd hacc hn
  · exact absurd hacc hn

def flC : Flt :=
  { exp := fun q => if 0 < q then 2 else 1/2, log := fun _ => 0,
    rpow := fun _ _ => 0, eps := 1/2, fmax := 1000, flowest := -1000 }

def sC : Anneal :=
  { downhill := false, f_x := 0, f_x_cand := 1, T_cost := [1/2],
    x := [0], x_cand := [5], D := 1 }

/-- Counterexample for C2 as stated: in uphill mode with f_x_cand = 1 better
than f_x = 0, the acceptance probability is exp of a negative argument —
the model exponential returns 1/2 there, matching real exp lying in (0,1)
on negatives — so p does not exceed 1, and the draw u = 3/4 in [0,1)
rejects the strictly improving candidate. -/
theorem anneal_uphill_improving_rejected_counterexample :
    sC.downhill = false ∧ sC.f_x < sC.f_x_cand ∧
    (0 : ℚ) ≤ 3/4 ∧ (3/4 : ℚ) < 1 ∧ 0 < flC.eps ∧ 0 ≤ vmean sC.T_cost ∧
    ¬(1 < Anneal.acceptance_prob flC sC) ∧
    (Anneal.acceptance_check flC (3/4) sC).x ≠ sC.x_cand ∧
    (Anneal.acceptance_check flC (3/4) sC).f_x ≠ sC.f_x_cand := by
  with_unfolding_all decide

def fl2 : Flt :=
  { exp := fun q => if 0 < q then 2 else 1, log := fun _ => 0,
    rpow := fun _ _ => 0, eps := 1, fmax := 1000, flowest := -1000 }

def s2w : Anneal :=
  { downhill := true, f_x := 5, f_x_cand := 3, T_cost := [1],
    x := [9], x_cand := [4], D := 1 }

/-- Witness for the amended C2 at a concrete downhill state. -/
theorem anneal_improving_accepted_downhill_witness :
    (Anneal.acceptance_check fl2 (1/2) s2w).x = s2w.x_cand ∧
    (Anneal.acceptance_check fl2 (1/2) s2w).f_x = s2w.f_x_cand :=
  anneal_improving_accepted_downhill fl2 (1/2) s2w rfl (by decide)
    (by decide) (by with_unfolding_all decide)
    (fun q hq => by
      show 1 < (if 0 < q then 2 else 1)
      rw [if_pos hq]
      norm_num)
    (by with_unfolding_all decide)

def flR : Flt :=
  { exp := fun _ => 1, log := fun _ => 0, rpow := fun _ _ => 1,
    eps := 1/2, fmax := 0, flowest := 0 }

def sR : Anneal :=
  { D := 1, x := [1], x_plusdelta := [2], f_x := 0, f_x_plusdelta := 2,
    T_k := [1], T_0 := [1], c := [1], f_x_best_repeats := 3,
    num_improved := 4, num_worse := 5, num_worse_accepted := 1,
    num_accepted := 2, k_r := 7, steps := 42 }

/-- C6, evaluated at the failing input: complete_reanneal runs to
completion on sR (tangent 4/3 is finite and nonzero, T_re = 1 is strictly
positive) and zeroes num_improved, num_worse, num_worse_accepted,
num_accepted and k_r — but f_x_best_repeats, documented in the source as
"Reset on reanneal", keeps its incoming value 3 because reset_stats never
touches it. -/
theorem anneal_complete_reanneal_keeps_repeats :
    (Anneal.complete_reanneal flR sR).toOption.map
        (fun t => (t.num_improved, t.num_worse, t.num_worse_accepted,
                   t.num_accepted, t.k_r, t.f_x_best_repeats)) =
      some (0, 0, 0, 0, 0, 3) ∧
    sR.f_x_best_repeats = 3 := by
  with_unfolding_all decide

theorem install_input_spec (s : Anneal) (inp : StepInput) :
    (Anneal.install_input s inp).num_improved = s.num_improved ∧
    (Anneal.install_input s inp).num_worse = s.num_worse ∧
    (Anneal.install_input s inp).steps = s.steps ∧
    (Anneal.install_input s inp).last_reanneal_steps = s.last_reanneal_steps ∧
    (Anneal.install_input s inp).state = s.state ∧
    (Anneal.install_input s inp).T_k = s.T_k ∧
    (Anneal.install_input s inp).T_f = s.T_f ∧
    (Anneal.install_input s inp).T_cost = s.T_cost ∧
    (Anneal.install_input s inp).exit_at_T_f = s.exit_at_T_f ∧
    (Anneal.install_input s inp).f_x_best_repeats = s.f_x_best_repeats ∧
    (Anneal.install_input s inp).f_x_best_repeat_max = s.f_x_best_repeat_max ∧
    (Anneal.install_input s inp).x = s.x ∧
    (Anneal.install_input s inp).x_cand = s.x_cand ∧
    (Anneal.install_input s inp).x_best = s.x_best ∧
    (Anneal.install_input s inp).range_min = s.range_min ∧
    (Anneal.install_input s inp).range_max = s.range_max ∧
    (Anneal.install_input s inp).D = s.D ∧
    (Anneal.install_input s inp).f_x_best = s.f_x_best ∧
    (Anneal.install_input s inp).downhill = s.downhill ∧
    (Anneal.install_input s inp).enable_reanneal = s.enable_reanneal ∧
    ((Anneal.install_input s inp).f_x_cand = s.f_x_cand ∨
      (Anneal.install_input s inp).f_x_cand = inp.f_x_cand) := by
  cases h : s.state <;> simp [Anneal.install_input, h]

theorem cooling_schedule_frame (fl : Flt) (s : Anneal) :
    (Anneal.cooling_schedule fl s).num_improved = s.num_improved ∧
    (Anneal.cooling_schedule fl s).num_worse = s.num_worse ∧
    (Anneal.cooling_schedule fl s).steps = s.steps ∧
    (Anneal.cooling_schedule fl s).last_reanneal_steps = s.last_reanneal_steps ∧
    (Anneal.cooling_schedule fl s).state = s.state ∧
    (Anneal.cooling_schedule fl s).x = s.x ∧
    (Anneal.cooling_schedule fl s).x_cand = s.x_cand ∧
    (Anneal.cooling_schedule fl s).x_best = s.x_best ∧
    (Anneal.cooling_schedule fl s).range_min = s.range_min ∧
    (Anneal.cooling_schedule fl s).range_max = s.range_max ∧
    (Anneal.cooling_schedule fl s).D = s.D ∧
    (Anneal.cooling_schedule fl s).f_x_best = s.f_x_best ∧
    (Anneal.cooling_schedule fl s).f_x_cand = s.f_x_cand ∧
    (Anneal.cooling_schedule fl s).downhill = s.downhill ∧
    (Anneal.cooling_schedule fl s).enable_reanneal = s.enable_reanneal :=
  ⟨rfl, rfl, rfl, rfl, rfl, rfl, rfl, rfl, rfl, rfl, rfl, rfl, rfl, rfl, rfl⟩

theorem generate_next_spec (fl : Flt) (s : Anneal) :
    ∀ (ds : List (List ℚ)) (t : Anneal), Anneal.generate_next fl s ds = some t →
      ∃ v, Anneal.in_bounds s v = true ∧ v.length = s.D ∧
        t = { s with x_cand := v }
  | [], t => by intro h; cases h
  | u :: rest, t => by
    intro h
    unfold Anneal.generate_next at h
    by_cases hb : Anneal.in_bounds s (Anneal.gen_proposal fl s u) = true
    · rw [if_pos hb] at h
      refine ⟨Anneal.gen_proposal fl s u, hb, ?_, by injection h with h2; exact h2.symm⟩
      unfold Anneal.gen_proposal
      simp
    · rw [if_neg hb] at h
      exact generate_next_spec fl s rest t h

theorem reanneal_test_frame (s : Anneal) :
    (Anneal.reanneal_test s).2.num_improved = s.num_improved ∧
    (Anneal.reanneal_test s).2.num_worse = s.num_worse ∧
    (Anneal.reanneal_test s).2.steps = s.steps ∧
    (Anneal.reanneal_test s).2.last_reanneal_steps = s.last_reanneal_steps ∧
    (Anneal.reanneal_test s).2.state = s.state ∧
    (Anneal.reanneal_test s).2.x_cand = s.x_cand ∧
    (Anneal.reanneal_test s).2.x_best = s.x_best ∧
    (Anneal.reanneal_test s).2.range_min = s.range_min ∧
    (Anneal.reanneal_test s).2.range_max = s.range_max ∧
    (Anneal.reanneal_test s).2.D = s.D ∧
    (Anneal.reanneal_test s).2.f_x_best = s.f_x_best ∧
    (Anneal.reanneal_test s).2.f_x_cand = s.f_x_cand ∧
    (Anneal.reanneal_test s).2.downhill = s.downhill ∧
    ((Anneal.reanneal_test s).2.x = s.x ∨ (Anneal.reanneal_test s).2.x = s.x_best) := by
  unfold Anneal.reanneal_test
  split
  · simp
  · split
    · simp
    · simp
theorem complete_reanneal_spec (fl : Flt) (s t : Anneal)
    (h : Anneal.complete_reanneal fl s = Except.ok t) :
    t.steps = s.steps ∧ t.state = s.state ∧ t.range_min = s.range_min ∧
    t.range_max = s.range_max ∧ t.D = s.D ∧ t.downhill = s.downhill ∧
    t.f_x_cand = s.f_x_cand ∧ t.f_x_best = s.f_x_best ∧
    t.x = s.x ∧ t.x_cand = s.x_cand ∧ t.x_best = s.x_best ∧
    t.enable_reanneal = s.enable_reanneal ∧
    t.last_reanneal_steps = s.steps ∧
    ((t.num_improved = s.num_improved ∧ t.num_worse = s.num_worse) ∨
      (t.num_improved = 0 ∧ t.num_worse = 0)) := by
  unfold Anneal.complete_reanneal at h
  dsimp only at h
  split at h
  · cases h
  · split at h
    · injection h with h2
      subst h2
      simp
    · split at h
      · injection h with h2
        subst h2
        unfold Anneal.reset_stats
        simp
      · cases h

theorem stop_check_state_irrelevant (fl : Flt) (s : Anneal) (st : Anneal_State) :
    Anneal.stop_check fl { s with state := st } = Anneal.stop_check fl s := rfl

theorem stop_check_installed (fl : Flt) (s : Anneal) (inp : StepInput) :
    Anneal.stop_check fl (Anneal.installed s inp) = Anneal.stop_check fl s := by
  obtain ⟨_, _, _, _, _, hTk, hTf, hTc, hex, hrep, hmax, _⟩ := install_input_spec s inp
  unfold Anneal.installed
  unfold Anneal.stop_check
  dsimp only
  rw [hTk, hTf, hTc, hex, hrep, hmax]

theorem acceptance_check_spec (fl : Flt) (u : ℚ) (s : Anneal) :
    (Anneal.acceptance_check fl u s).num_improved +
        (Anneal.acceptance_check fl u s).num_worse =
      s.num_improved + s.num_worse + 1 ∧
    (Anneal.acceptance_check fl u s).steps = s.steps ∧
    (Anneal.acceptance_check fl u s).last_reanneal_steps = s.last_reanneal_steps ∧
    (Anneal.acceptance_check fl u s).state = s.state ∧
    (Anneal.acceptance_check fl u s).range_min = s.range_min ∧
    (Anneal.acceptance_check fl u s).range_max = s.range_max ∧
    (Anneal.acceptance_check fl u s).D = s.D ∧
    (Anneal.acceptance_check fl u s).downhill = s.downhill ∧
    (Anneal.acceptance_check fl u s).f_x_cand = s.f_x_cand ∧
    (Anneal.acceptance_check fl u s).x_cand = s.x_cand ∧
    ((Anneal.acceptance_check fl u s).x = s.x ∨
      (Anneal.acceptance_check fl u s).x = s.x_cand) ∧
    ((Anneal.acceptance_check fl u s).x_best = s.x_best ∨
      (Anneal.acceptance_check fl u s).x_best = s.x_cand) ∧
    ((Anneal.acceptance_check fl u s).f_x_best = s.f_x_best ∨
      ((Anneal.acceptance_check fl u s).f_x_best = s.f_x_cand ∧
        s.f_x_cand < s.f_x_best)) ∧
    (Anneal.acceptance_check fl u s).enable_reanneal = s.enable_reanneal := by
  rcases acceptance_check_cases fl u s with ⟨_, _, heq⟩ | ⟨_, _, heq⟩ |
    ⟨_, _, heq⟩ | ⟨_, _, heq⟩ <;> rw [heq]
  · rw [accept_candidate_eq]
    split
    · rename_i hlt
      refine ⟨by dsimp only; omega, rfl, rfl, rfl, rfl, rfl, rfl, rfl, rfl, rfl,
        Or.inr rfl, Or.inr rfl, Or.inr ⟨rfl, by simpa using hlt⟩, rfl⟩
    · refine ⟨by dsimp only; omega, rfl, rfl, rfl, rfl, rfl, rfl, rfl, rfl, rfl,
        Or.inr rfl, Or.inl rfl, Or.inl rfl, rfl⟩
  · rw [accept_candidate_eq]
    split
    · rename_i hlt
      refine ⟨by dsimp only; omega, rfl, rfl, rfl, rfl, rfl, rfl, rfl, rfl, rfl,
        Or.inr rfl, Or.inr rfl, Or.inr ⟨rfl, by simpa using hlt⟩, rfl⟩
    · refine ⟨by dsimp only; omega, rfl, rfl, rfl, rfl, rfl, rfl, rfl, rfl, rfl,
        Or.inr rfl, Or.inl rfl, Or.inl rfl, rfl⟩
  · rw [reject_candidate_eq]
    exact ⟨by dsimp only; omega, rfl, rfl, rfl, rfl, rfl, rfl, rfl, rfl, rfl,
      Or.inl rfl, Or.inl rfl, Or.inl rfl, rfl⟩
  · rw [reject_candidate_eq]
    exact ⟨by dsimp only; omega, rfl, rfl, rfl, rfl, rfl, rfl, rfl, rfl, rfl,
      Or.inl rfl, Or.inl rfl, Or.inl rfl, rfl⟩
theorem step_finish_spec (tc : Anneal) :
    ((Anneal.step_finish tc).state = Anneal_State.NeedToCompute ∨
      (Anneal.step_finish tc).state = Anneal_State.NeedToComputeSet) ∧
    (Anneal.step_finish tc).num_improved = tc.num_improved ∧
    (Anneal.step_finish tc).num_worse = tc.num_worse ∧
    (Anneal.step_finish tc).steps = tc.steps ∧
    (Anneal.step_finish tc).last_reanneal_steps = tc.last_reanneal_steps ∧
    (Anneal.step_finish tc).range_min = tc.range_min ∧
    (Anneal.step_finish tc).range_max = tc.range_max ∧
    (Anneal.step_finish tc).D = tc.D ∧
    (Anneal.step_finish tc).downhill = tc.downhill ∧
    (Anneal.step_finish tc).f_x_cand = tc.f_x_cand ∧
    (Anneal.step_finish tc).f_x_best = tc.f_x_best ∧
    (Anneal.step_finish tc).x_cand = tc.x_cand ∧
    (Anneal.step_finish tc).x_best = tc.x_best ∧
    ((Anneal.step_finish tc).x = tc.x ∨ (Anneal.step_finish tc).x = tc.x_best) := by
  obtain ⟨h1, h2, h3, h4, h5, h6, h7, h8, h9, h10, h11, h12, h13, h14⟩ :=
    reanneal_test_frame tc
  unfold Anneal.step_finish
  dsimp only
  by_cases he : tc.enable_reanneal
  · rw [if_pos he]
    by_cases hr : (Anneal.reanneal_test tc).1
    · rw [if_pos hr]
      dsimp only
      exact ⟨Or.inr rfl, h1, h2, h3, h4, h8, h9, h10, h13, h12, h11, h6, h7, h14⟩
    · rw [if_neg hr]
      dsimp only
      exact ⟨Or.inl rfl, h1, h2, h3, h4, h8, h9, h10, h13, h12, h11, h6, h7, h14⟩
  · rw [if_neg he]
    dsimp only
    exact ⟨Or.inl rfl, rfl, rfl, rfl, rfl, rfl, rfl, rfl, rfl, rfl, rfl, rfl, rfl,
      Or.inl rfl⟩

theorem step_cases (fl : Flt) (s : Anneal) (inp : StepInput) (t : Anneal)
    (h : Anneal.step fl s inp = some t) :
    (Anneal.stop_check fl (Anneal.installed s inp) = true ∧
      t = { Anneal.installed s inp with state := Anneal_State.ReadyToStop }) ∨
    (Anneal.stop_check fl (Anneal.installed s inp) = false ∧
      ∃ tc, Anneal.step_core fl (Anneal.installed s inp) inp = some tc ∧
        t = Anneal.step_finish tc) := by
  unfold Anneal.step at h
  dsimp only at h
  by_cases hs : Anneal.stop_check fl (Anneal.installed s inp) = true
  · rw [if_pos hs] at h
    injection h with h2
    exact Or.inl ⟨hs, h2.symm⟩
  · rw [if_neg hs] at h
    rcases Option.map_eq_some'.mp h with ⟨tc, hc, ht⟩
    exact Or.inr ⟨by simpa using hs, tc, hc, ht.symm⟩

theorem step_core_cases (fl : Flt) (s0 : Anneal) (inp : StepInput) (tc : Anneal)
    (h : Anneal.step_core fl s0 inp = some tc) :
    ∃ s1, ((s0.state ≠ Anneal_State.NeedToComputeSet ∧ s1 = s0) ∨
        (s0.state = Anneal_State.NeedToComputeSet ∧
          ∃ sr, Anneal.complete_reanneal fl s0 = Except.ok sr ∧
            s1 = { sr with state := Anneal_State.NeedToStep })) ∧
      ∃ v, Anneal.in_bounds
            (Anneal.acceptance_check fl inp.u (Anneal.cooling_schedule fl s1)) v = true ∧
        v.length = (Anneal.acceptance_check fl inp.u (Anneal.cooling_schedule fl s1)).D ∧
        tc = { Anneal.acceptance_check fl inp.u (Anneal.cooling_schedule fl s1) with
               x_cand := v
               k := (Anneal.acceptance_check fl inp.u (Anneal.cooling_schedule fl s1)).k + 1
               k_r :=
                 (Anneal.acceptance_check fl inp.u (Anneal.cooling_schedule fl s1)).k_r
                   + 1 } := by
  unfold Anneal.step_core at h
  dsimp only at h
  by_cases hst : s0.state = Anneal_State.NeedToComputeSet
  · rw [if_pos hst] at h
    cases hcr : Anneal.complete_reanneal fl s0 with
    | error e => rw [hcr] at h; cases h
    | ok sr =>
      rw [hcr] at h
      dsimp only [Option.bind] at h
      rcases Option.map_eq_some'.mp h with ⟨s2, hgen, htc⟩
      rcases generate_next_spec fl _ _ _ hgen with ⟨v, hv, hlen, hs2⟩
      subst hs2
      refine ⟨{ sr with state := Anneal_State.NeedToStep },
        Or.inr ⟨hst, sr, rfl, rfl⟩, v, hv, hlen, ?_⟩
      rw [← htc]
  · rw [if_neg hst] at h
    dsimp only [Option.bind] at h
    rcases Option.map_eq_some'.mp h with ⟨s2, hgen, htc⟩
    rcases generate_next_spec fl _ _ _ hgen with ⟨v, hv, hlen, hs2⟩
    subst hs2
    refine ⟨s0, Or.inl ⟨hst, rfl⟩, v, hv, hlen, ?_⟩
    rw [← htc]
theorem installed_spec (s : Anneal) (inp : StepInput) :
    (Anneal.installed s inp).steps = s.steps + 1 ∧
    (Anneal.installed s inp).last_reanneal_steps = s.last_reanneal_steps ∧
    (Anneal.installed s inp).num_improved = s.num_improved ∧
    (Anneal.installed s inp).num_worse = s.num_worse ∧
    (Anneal.installed s inp).state = s.state ∧
    (Anneal.installed s inp).x = s.x ∧
    (Anneal.installed s inp).x_cand = s.x_cand ∧
    (Anneal.installed s inp).x_best = s.x_best ∧
    (Anneal.installed s inp).range_min = s.range_min ∧
    (Anneal.installed s inp).range_max = s.range_max ∧
    (Anneal.installed s inp).D = s.D ∧
    (Anneal.installed s inp).f_x_best = s.f_x_best ∧
    (Anneal.installed s inp).downhill = s.downhill ∧
    ((Anneal.installed s inp).f_x_cand = s.f_x_cand ∨
      (Anneal.installed s inp).f_x_cand = inp.f_x_cand) := by
  obtain ⟨h1, h2, h3, h4, h5, _, _, _, _, _, _, h12, h13, h14, h15, h16, h17,
    h18, h19, _, h21⟩ := install_input_spec s inp
  unfold Anneal.installed
  dsimp only
  exact ⟨by rw [h3], h4, h1, h2, h5, h12, h13, h14, h15, h16, h17, h18, h19, h21⟩

/-- The inductive invariant behind the reanneal-ratio safety argument: the
steps elapsed since the last reanneal never exceed the candidates counted
since then, and a stopped object stays stopped. -/
def Anneal.counts_cover_steps (fl : Flt) (s : Anneal) : Prop :=
  s.last_reanneal_steps ≤ s.steps ∧
  (s.state ≠ Anneal_State.ReadyToStop →
    s.steps ≤ s.last_reanneal_steps + s.num_improved + s.num_worse) ∧
  (s.state = Anneal_State.ReadyToStop → Anneal.stop_check fl s = true)

theorem step_core_counts (fl : Flt) (s : Anneal) (inp : StepInput) (tc : Anneal)
    (hinv : Anneal.counts_cover_steps fl s)
    (hstop : Anneal.stop_check fl (Anneal.installed s inp) = false)
    (hcore : Anneal.step_core fl (Anneal.installed s inp) inp = some tc) :
    tc.last_reanneal_steps ≤ tc.steps ∧
    tc.steps ≤ tc.last_reanneal_steps + tc.num_improved + tc.num_worse := by
  obtain ⟨hin1, hin2, hin3, hin4, hin5, _⟩ := installed_spec s inp
  have hstate0 : ¬ s.state = Anneal_State.ReadyToStop := by
    intro hrts
    rw [stop_check_installed, hinv.2.2 hrts] at hstop
    cases hstop
  have hbound := hinv.2.1 hstate0
  have hlrs := hinv.1
  rcases step_core_cases fl _ inp tc hcore with ⟨s1, hcases, v, hv, hlen, htc⟩
  have hs1 : s1.last_reanneal_steps ≤ s1.steps ∧
      s1.steps ≤ s1.last_reanneal_steps + s1.num_improved + s1.num_worse + 1 := by
    rcases hcases with ⟨_, rfl⟩ | ⟨_, sr, hcr, rfl⟩
    · rw [hin1, hin2, hin3, hin4]
      omega
    · obtain ⟨hc1, _, _, _, _, _, _, _, _, _, _, _, hc13, _⟩ :=
        complete_reanneal_spec fl _ sr hcr
      dsimp only
      rw [hc1, hc13]
      omega
  subst htc
  obtain ⟨hcf1, hcf2, hcf3, hcf4, _⟩ :=
    cooling_schedule_frame fl s1
  obtain ⟨ha1, ha2, ha3, _⟩ :=
    acceptance_check_spec fl inp.u (Anneal.cooling_schedule fl s1)
  dsimp only
  rw [ha2, ha3, hcf3, hcf4]
  rw [hcf1, hcf2] at ha1
  omega

theorem reachable_counts (fl : Flt) (s : Anneal) (h : Anneal.Reachable fl s) :
    Anneal.counts_cover_steps fl s := by
  induction h with
  | base s0 hfresh =>
    obtain ⟨_, _, _, _, f5, f6, _, _⟩ := hfresh
    have hsteps : (Anneal.init fl s0).steps = s0.steps := rfl
    have hlrs : (Anneal.init fl s0).last_reanneal_steps = s0.last_reanneal_steps := rfl
    have hni : (Anneal.init fl s0).num_improved = s0.num_improved := rfl
    have hnw : (Anneal.init fl s0).num_worse = s0.num_worse := rfl
    have hst : (Anneal.init fl s0).state = Anneal_State.NeedToCompute := rfl
    refine ⟨?_, ?_, ?_⟩
    · rw [hsteps, hlrs]; omega
    · intro _; rw [hsteps, hlrs, hni, hnw]; omega
    · intro hrts; rw [hst] at hrts; cases hrts
  | next s inp t hr hstep ih =>
    obtain ⟨hin1, hin2, hin3, hin4, hin5, _⟩ := installed_spec s inp
    rcases step_cases fl s inp t hstep with ⟨hsc, rfl⟩ | ⟨hsc, tc, hcore, rfl⟩
    · refine ⟨?_, ?_, ?_⟩
      · dsimp only
        rw [hin1, hin2]
        exact le_trans ih.1 (Nat.le_succ _)
      · intro hne
        exact absurd rfl hne
      · intro _
        rw [stop_check_state_irrelevant]
        exact hsc
    · have hc := step_core_counts fl s inp tc ih hsc hcore
      obtain ⟨hf1, hf2, hf3, hf4, hf5, _⟩ := step_finish_spec tc
      refine ⟨?_, ?_, ?_⟩
      · rw [hf4, hf5]; exact hc.1
      · intro _; rw [hf4, hf5, hf2, hf3]; exact hc.2
      · intro hrts
        rcases hf1 with hn | hn <;> rw [hn] at hrts <;> cases hrts

/-- C10.  No division by zero in the reanneal ratio: from any state the
documented protocol can reach (construct with any tunables, init, then any
successful steps), when the next step gets past stop_check and its core
reaches reanneal_test in state tc with the ratio about to be consulted
(at least 10 steps since the last reanneal, k_r below
reanneal_after_steps), the denominator num_improved + num_worse of
accepted_vs_generated is at least 10, in particular nonzero: every step
since the statistics were last reset ran acceptance_check, which increments
one of the two counters. -/
theorem anneal_reanneal_ratio_denominator_positive (fl : Flt) (s : Anneal)
    (inp : StepInput) (tc : Anneal)
    (hreach : Anneal.Reachable fl s)
    (hstop : Anneal.stop_check fl (Anneal.installed s inp) = false)
    (hcore : Anneal.step_core fl (Anneal.installed s inp) inp = some tc)
    (hconsult : 10 ≤ tc.steps - tc.last_reanneal_steps ∧
      tc.k_r < tc.reanneal_after_steps) :
    10 ≤ tc.num_improved + tc.num_worse ∧
    ((tc.num_improved : ℚ) + (tc.num_worse : ℚ) ≠ 0) := by
  have hinv := reachable_counts fl s hreach
  have hc := step_core_counts fl s inp tc hinv hstop hcore
  have h10 : 10 ≤ tc.num_improved + tc.num_worse := by omega
  refine ⟨h10, ?_⟩
  have hpos : (0 : ℚ) < ((tc.num_improved + tc.num_worse : ℕ) : ℚ) := by
    exact_mod_cast Nat.lt_of_lt_of_le (by norm_num) h10
  push_cast at hpos
  linarith
theorem option_eq_some_getD {α : Type} (o : Option α) (d : α) (h : o.isSome = true) :
    o = some (o.getD d) := by
  cases o with
  | none => cases h
  | some a => rfl

theorem run_reachable (fl : Flt) : ∀ (l : List StepInput) (s t : Anneal),
    Anneal.Reachable fl s → Anneal.run_list fl s l = some t → Anneal.Reachable fl t
  | [], s, t => by
    intro hr h
    injection h with h2
    exact h2 ▸ hr
  | inp :: rest, s, t => by
    intro hr h
    unfold Anneal.run_list at h
    rcases Option.bind_eq_some.mp h with ⟨s1, hstep, hrun⟩
    exact run_reachable fl rest s1 t (Anneal.Reachable.next s inp s1 hr hstep) hrun

def flW : Flt :=
  { exp := fun _ => 1, log := fun _ => -1, rpow := fun _ _ => 1,
    eps := 0, fmax := 1000, flowest := -1000 }

def aW : Anneal := Anneal.init flW (Anneal.construct [0] [(-1, 1)])

def inpW : StepInput := { f_x_cand := 5, u := 2, gen_draws := [[0]] }

def s9W : Anneal := (Anneal.run_list flW aW (List.replicate 9 inpW)).getD {}

def tcW : Anneal := (Anneal.step_core flW (Anneal.installed s9W inpW) inpW).getD {}

/-- Witness for C10: after nine concrete steps from init, the tenth step
reaches reanneal_test with 10 steps elapsed and 10 counted candidates. -/
theorem anneal_reanneal_ratio_denominator_witness :
    10 ≤ tcW.num_improved + tcW.num_worse ∧
    ((tcW.num_improved : ℚ) + (tcW.num_worse : ℚ) ≠ 0) :=
  anneal_reanneal_ratio_denominator_positive flW s9W inpW tcW
    (run_reachable flW (List.replicate 9 inpW) aW s9W
      (Anneal.Reachable.base _ ⟨rfl, rfl, rfl, rfl, rfl, rfl, rfl, rfl⟩)
      (option_eq_some_getD _ _ (by with_unfolding_all decide)))
    (by with_unfolding_all decide)
    (option_eq_some_getD _ _ (by with_unfolding_all decide))
    (by with_unfolding_all decide)
/-- Componentwise containment of a parameter vector in the search range of a
state, together with the length agreement that makes the indexing total. -/
def Anneal.within_ranges (s : Anneal) (v : List ℚ) : Prop :=
  v.length = s.D ∧ ∀ i, i < s.D →
    s.range_min.getD i 0 ≤ v.getD i 0 ∧ v.getD i 0 ≤ s.range_max.getD i 0

/-- The bounds invariant of the optimizer: the ranges have dimension D and
x, x_cand and x_best all lie within them. -/
def Anneal.bounds_ok (s : Anneal) : Prop :=
  s.range_min.length = s.D ∧ s.range_max.length = s.D ∧
  Anneal.within_ranges s s.x ∧ Anneal.within_ranges s s.x_cand ∧
  Anneal.within_ranges s s.x_best

theorem in_bounds_within (s : Anneal) (v : List ℚ)
    (hmin : s.range_min.length = s.D) (hmax : s.range_max.length = s.D)
    (hlen : v.length = s.D) (h : Anneal.in_bounds s v = true) :
    Anneal.within_ranges s v := by
  unfold Anneal.in_bounds at h
  rw [Bool.and_eq_true] at h
  obtain ⟨h1, h2⟩ := h
  refine ⟨hlen, fun i hi => ?_⟩
  constructor
  · exact vle_getD _ _ h2 i (by omega) (by omega)
  · exact vle_getD _ _ h1 i (by omega) (by omega)

theorem within_ranges_congr (s t : Anneal) (v : List ℚ)
    (hmin : t.range_min = s.range_min) (hmax : t.range_max = s.range_max)
    (hD : t.D = s.D) (h : Anneal.within_ranges s v) : Anneal.within_ranges t v := by
  refine ⟨by rw [hD]; exact h.1, fun i hi => ?_⟩
  rw [hmin, hmax]
  exact h.2 i (by omega)

theorem bounds_ok_transfer (s t : Anneal)
    (hmin : t.range_min = s.range_min) (hmax : t.range_max = s.range_max)
    (hD : t.D = s.D)
    (hx : t.x = s.x ∨ t.x = s.x_cand ∨ t.x = s.x_best)
    (hxc : t.x_cand = s.x_cand)
    (hxb : t.x_best = s.x_best ∨ t.x_best = s.x_cand)
    (hb : Anneal.bounds_ok s) : Anneal.bounds_ok t := by
  obtain ⟨h1, h2, hx0, hxc0, hxb0⟩ := hb
  refine ⟨by rw [hmin, hD]; exact h1, by rw [hmax, hD]; exact h2, ?_, ?_, ?_⟩
  · rcases hx with h | h | h <;> rw [h] <;>
      exact within_ranges_congr s t _ hmin hmax hD (by assumption)
  · rw [hxc]
    exact within_ranges_congr s t _ hmin hmax hD hxc0
  · rcases hxb with h | h <;> rw [h] <;>
      exact within_ranges_congr s t _ hmin hmax hD (by assumption)

theorem step_bounds (fl : Flt) (s : Anneal) (inp : StepInput) (t : Anneal)
    (hstep : Anneal.step fl s inp = some t) (hb : Anneal.bounds_ok s) :
    t.range_min = s.range_min ∧ t.range_max = s.range_max ∧ t.D = s.D ∧
    Anneal.bounds_ok t := by
  obtain ⟨_, _, _, _, _, hi6, hi7, hi8, hi9, hi10, hi11, _⟩ := installed_spec s inp
  rcases step_cases fl s inp t hstep with ⟨hsc, rfl⟩ | ⟨hsc, tc, hcore, rfl⟩
  · dsimp only
    refine ⟨hi9, hi10, hi11, ?_⟩
    exact bounds_ok_transfer s _ hi9 hi10 hi11 (Or.inl hi6) hi7 (Or.inl hi8) hb
  · have hb0 : Anneal.bounds_ok (Anneal.installed s inp) :=
      bounds_ok_transfer s _ hi9 hi10 hi11 (Or.inl hi6) hi7 (Or.inl hi8) hb
    rcases step_core_cases fl _ inp tc hcore with ⟨s1, hcases, v, hv, hlen, htc⟩
    have hs1 : s1.range_min = s.range_min ∧ s1.range_max = s.range_max ∧
        s1.D = s.D ∧ Anneal.bounds_ok s1 := by
      rcases hcases with ⟨_, rfl⟩ | ⟨_, sr, hcr, rfl⟩
      · exact ⟨hi9, hi10, hi11, hb0⟩
      · obtain ⟨_, _, hc3, hc4, hc5, _, _, _, hc9, hc10, hc11, _⟩ :=
          complete_reanneal_spec fl _ sr hcr
        dsimp only
        refine ⟨by rw [hc3, hi9], by rw [hc4, hi10], by rw [hc5, hi11], ?_⟩
        exact bounds_ok_transfer (Anneal.installed s inp) _
          (by dsimp only; rw [hc3]) (by dsimp only; rw [hc4]) (by dsimp only; rw [hc5])
          (Or.inl (by dsimp only; rw [hc9])) (by dsimp only; rw [hc10])
          (Or.inl (by dsimp only; rw [hc11])) hb0
    obtain ⟨hcf1, hcf2, hcf3, hcf4, hcf5, hcf6, hcf7, hcf8, hcf9, hcf10, hcf11, _⟩ :=
      cooling_schedule_frame fl s1
    obtain ⟨_, _, _, _, ha5, ha6, ha7, _, _, ha10, ha11, ha12, _⟩ :=
      acceptance_check_spec fl inp.u (Anneal.cooling_schedule fl s1)
    have hbc : Anneal.bounds_ok (Anneal.cooling_schedule fl s1) :=
      bounds_ok_transfer s1 _ hcf9 hcf10 hcf11 (Or.inl hcf6) hcf7 (Or.inl hcf8)
        hs1.2.2.2
    have hba : Anneal.bounds_ok
        (Anneal.acceptance_check fl inp.u (Anneal.cooling_schedule fl s1)) := by
      refine bounds_ok_transfer (Anneal.cooling_schedule fl s1) _ ha5 ha6 ha7 ?_ ha10
        ha12 hbc
      rcases ha11 with h | h
      · exact Or.inl h
      · exact Or.inr (Or.inl h)
    have hrange_acc : (Anneal.acceptance_check fl inp.u
          (Anneal.cooling_schedule fl s1)).range_min = s.range_min ∧
        (Anneal.acceptance_check fl inp.u
          (Anneal.cooling_schedule fl s1)).range_max = s.range_max ∧
        (Anneal.acceptance_check fl inp.u (Anneal.cooling_schedule fl s1)).D = s.D :=
      ⟨by rw [ha5, hcf9, hs1.1], by rw [ha6, hcf10, hs1.2.1], by rw [ha7, hcf11, hs1.2.2.1]⟩
    -- the candidate-generation result replaces x_cand by the in-bounds v
    have htcb : tc.range_min = s.range_min ∧ tc.range_max = s.range_max ∧
        tc.D = s.D ∧ Anneal.bounds_ok tc := by
      subst htc
      dsimp only
      refine ⟨hrange_acc.1, hrange_acc.2.1, hrange_acc.2.2, hba.1, hba.2.1, ?_, ?_, ?_⟩
      · exact hba.2.2.1
      · exact in_bounds_within _ v hba.1 hba.2.1 hlen hv
      · exact hba.2.2.2.2
    obtain ⟨hf1, _, _, _, _, hf6, hf7, hf8, _, _, _, hf12, hf13, hf14⟩ :=
      step_finish_spec tc
    refine ⟨by rw [hf6, htcb.1], by rw [hf7, htcb.2.1], by rw [hf8, htcb.2.2.1], ?_⟩
    refine bounds_ok_transfer tc _ hf6 hf7 hf8 ?_ hf12 (Or.inl hf13) htcb.2.2.2
    rcases hf14 with h | h
    · exact Or.inl h
    · exact Or.inr (Or.inr h)

theorem resize_self (v : List ℚ) (f : ℚ) : resize v v.length f = v := by
  simp [resize]

theorem construct_bounds (ip : List ℚ) (pr : List (ℚ × ℚ))
    (hin : ∀ i, i < ip.length →
      (Anneal.construct ip pr).range_min.getD i 0 ≤ ip.getD i 0 ∧
      ip.getD i 0 ≤ (Anneal.construct ip pr).range_max.getD i 0) :
    Anneal.bounds_ok (Anneal.construct ip pr) := by
  refine ⟨by simp [Anneal.construct], by simp [Anneal.construct], ⟨rfl, hin⟩,
    ⟨rfl, hin⟩, ⟨rfl, hin⟩⟩

theorem init_bounds (fl : Flt) (s : Anneal) (hb : Anneal.bounds_ok s) :
    (Anneal.init fl s).range_min = s.range_min ∧
    (Anneal.init fl s).range_max = s.range_max ∧
    (Anneal.init fl s).D = s.D ∧
    Anneal.bounds_ok (Anneal.init fl s) := by
  have hx : (Anneal.init fl s).x = s.x := by
    show resize s.x s.D 0 = s.x
    rw [← hb.2.2.1.1]
    exact resize_self s.x 0
  have hxc : (Anneal.init fl s).x_cand = s.x_cand := by
    show resize s.x_cand s.D 0 = s.x_cand
    rw [← hb.2.2.2.1.1]
    exact resize_self s.x_cand 0
  have hxb : (Anneal.init fl s).x_best = s.x_best := by
    show resize s.x_best s.D 0 = s.x_best
    rw [← hb.2.2.2.2.1]
    exact resize_self s.x_best 0
  exact ⟨rfl, rfl, rfl,
    bounds_ok_transfer s _ rfl rfl rfl (Or.inl hx) hxc (Or.inl hxb) hb⟩

theorem run_bounds (fl : Flt) : ∀ (l : List StepInput) (s t : Anneal),
    Anneal.bounds_ok s → Anneal.run_list fl s l = some t → Anneal.bounds_ok t
  | [], s, t => by
    intro hb h
    injection h with h2
    exact h2 ▸ hb
  | inp :: rest, s, t => by
    intro hb h
    unfold Anneal.run_list at h
    rcases Option.bind_eq_some.mp h with ⟨s1, hstep, hrun⟩
    exact run_bounds fl rest s1 t (step_bounds fl s inp s1 hstep hb).2.2.2 hrun

/-- C1 (amended).  Bounds invariant: for every construction whose initial
point lies within the constructed ranges, the vectors x, x_cand and x_best
lie within [range_min[i], range_max[i]] componentwise immediately after
construction, after init(), and after every step() of every run.  The
in-range hypothesis on the initial point is necessary: the constructor
copies the caller's point without any bounds check, so an out-of-range
initial point violates the invariant already at construction time (see the
counterexample). -/
theorem anneal_bounds_invariant (fl : Flt) (ip : List ℚ) (pr : List (ℚ × ℚ))
    (l : List StepInput) (s : Anneal)
    (hin : ∀ i, i < ip.length →
      (Anneal.construct ip pr).range_min.getD i 0 ≤ ip.getD i 0 ∧
      ip.getD i 0 ≤ (Anneal.construct ip pr).range_max.getD i 0)
    (hrun : Anneal.run_list fl (Anneal.init fl (Anneal.construct ip pr)) l = some s) :
    (∀ i, i < (Anneal.construct ip pr).D →
      ((Anneal.construct ip pr).range_min.getD i 0 ≤
          (Anneal.construct ip pr).x.getD i 0 ∧
        (Anneal.construct ip pr).x.getD i 0 ≤
          (Anneal.construct ip pr).range_max.getD i 0) ∧
      ((Anneal.construct ip pr).range_min.getD i 0 ≤
          (Anneal.construct ip pr).x_cand.getD i 0 ∧
        (Anneal.construct ip pr).x_cand.getD i 0 ≤
          (Anneal.construct ip pr).range_max.getD i 0) ∧
      ((Anneal.construct ip pr).range_min.getD i 0 ≤
          (Anneal.construct ip pr).x_best.getD i 0 ∧
        (Anneal.construct ip pr).x_best.getD i 0 ≤
          (Anneal.construct ip pr).range_max.getD i 0)) ∧
    (∀ i, i < s.D →
      (s.range_min.getD i 0 ≤ s.x.getD i 0 ∧ s.x.getD i 0 ≤ s.range_max.getD i 0) ∧
      (s.range_min.getD i 0 ≤ s.x_cand.getD i 0 ∧
        s.x_cand.getD i 0 ≤ s.range_max.getD i 0) ∧
      (s.range_min.getD i 0 ≤ s.x_best.getD i 0 ∧
        s.x_best.getD i 0 ≤ s.range_max.getD i 0)) := by
  have hcb := construct_bounds ip pr hin
  have hib := (init_bounds fl _ hcb).2.2.2
  have hsb := run_bounds fl l _ s hib hrun
  constructor
  · intro i hi
    exact ⟨hcb.2.2.1.2 i hi, hcb.2.2.2.1.2 i hi, hcb.2.2.2.2.2 i hi⟩
  · intro i hi
    exact ⟨hsb.2.2.1.2 i hi, hsb.2.2.2.1.2 i hi, hsb.2.2.2.2.2 i hi⟩

/-- Counterexample for C1 as stated: a valid construction (matching
dimension counts) whose caller-supplied initial point 2 lies above the
range [0, 1]; immediately after construction x, x_cand and x_best all sit
outside the range, because the constructor performs no bounds check. -/
theorem anneal_bounds_unchecked_counterexample :
    ([(2 : ℚ)].length = [((0 : ℚ), (1 : ℚ))].length) ∧
    (Anneal.construct [2] [((0 : ℚ), 1)]).range_max.getD 0 0
      < (Anneal.construct [2] [((0 : ℚ), 1)]).x_cand.getD 0 0 ∧
    (Anneal.construct [2] [((0 : ℚ), 1)]).range_max.getD 0 0
      < (Anneal.construct [2] [((0 : ℚ), 1)]).x.getD 0 0 ∧
    (Anneal.construct [2] [((0 : ℚ), 1)]).range_max.getD 0 0
      < (Anneal.construct [2] [((0 : ℚ), 1)]).x_best.getD 0 0 := by
  with_unfolding_all decide

/-- Witness for the amended C1 on a concrete in-range construction and the
empty run. -/
theorem anneal_bounds_invariant_witness :
    (∀ i, i < (Anneal.construct [0] [((-1 : ℚ), 1)]).D →
      ((Anneal.construct [0] [((-1 : ℚ), 1)]).range_min.getD i 0 ≤
          (Anneal.construct [0] [((-1 : ℚ), 1)]).x.getD i 0 ∧
        (Anneal.construct [0] [((-1 : ℚ), 1)]).x.getD i 0 ≤
          (Anneal.construct [0] [((-1 : ℚ), 1)]).range_max.getD i 0) ∧
      ((Anneal.construct [0] [((-1 : ℚ), 1)]).range_min.getD i 0 ≤
          (Anneal.construct [0] [((-1 : ℚ), 1)]).x_cand.getD i 0 ∧
        (Anneal.construct [0] [((-1 : ℚ), 1)]).x_cand.getD i 0 ≤
          (Anneal.construct [0] [((-1 : ℚ), 1)]).range_max.getD i 0) ∧
      ((Anneal.construct [0] [((-1 : ℚ), 1)]).range_min.getD i 0 ≤
          (Anneal.construct [0] [((-1 : ℚ), 1)]).x_best.getD i 0 ∧
        (Anneal.construct [0] [((-1 : ℚ), 1)]).x_best.getD i 0 ≤
          (Anneal.construct [0] [((-1 : ℚ), 1)]).range_max.getD i 0)) ∧
    (∀ i, i < aW.D →
      (aW.range_min.getD i 0 ≤ aW.x.getD i 0 ∧
        aW.x.getD i 0 ≤ aW.range_max.getD i 0) ∧
      (aW.range_min.getD i 0 ≤ aW.x_cand.getD i 0 ∧
        aW.x_cand.getD i 0 ≤ aW.range_max.getD i 0) ∧
      (aW.range_min.getD i 0 ≤ aW.x_best.getD i 0 ∧
        aW.x_best.getD i 0 ≤ aW.range_max.getD i 0)) :=
  anneal_bounds_invariant flW [0] [((-1 : ℚ), 1)] [] aW
    (fun i hi => by
      have h0 : i = 0 := by
        have : [(0 : ℚ)].length = 1 := rfl
        omega
      subst h0
      with_unfolding_all decide)
    rfl
theorem step_f_x_best_le (fl : Flt) (s : Anneal) (inp : StepInput) (t : Anneal)
    (hstep : Anneal.step fl s inp = some t) : t.f_x_best ≤ s.f_x_best := by
  obtain ⟨_, _, _, _, _, _, _, _, _, _, _, hi12, _⟩ := installed_spec s inp
  rcases step_cases fl s inp t hstep with ⟨hsc, rfl⟩ | ⟨hsc, tc, hcore, rfl⟩
  · dsimp only
    rw [hi12]
  · rcases step_core_cases fl _ inp tc hcore with ⟨s1, hcases, v, hv, hlen, htc⟩
    have hs1 : s1.f_x_best = s.f_x_best := by
      rcases hcases with ⟨_, rfl⟩ | ⟨_, sr, hcr, rfl⟩
      · exact hi12
      · obtain ⟨_, _, _, _, _, _, _, hc8, _⟩ := complete_reanneal_spec fl _ sr hcr
        dsimp only
        rw [hc8, hi12]
    obtain ⟨_, _, _, _, _, _, _, _, _, _, _, hcf12, hcf13, _⟩ :=
      cooling_schedule_frame fl s1
    obtain ⟨_, _, _, _, _, _, _, _, _, _, _, _, ha13, _⟩ :=
      acceptance_check_spec fl inp.u (Anneal.cooling_schedule fl s1)
    obtain ⟨_, _, _, _, _, _, _, _, _, _, hf11, _⟩ := step_finish_spec tc
    have htcb : tc.f_x_best ≤ s.f_x_best := by
      subst htc
      dsimp only
      rcases ha13 with h | ⟨h, hlt⟩
      · rw [h, hcf12, hs1]
      · rw [hcf12, hs1] at hlt
        rw [h]
        exact le_of_lt hlt
    rw [hf11]
    exact htcb

theorem step_uphill_frozen (fl : Flt) (s : Anneal) (inp : StepInput) (t : Anneal)
    (hstep : Anneal.step fl s inp = some t)
    (hinp : fl.flowest ≤ inp.f_x_cand)
    (hinv : s.downhill = false ∧ s.f_x_best = fl.flowest ∧ fl.flowest ≤ s.f_x_cand) :
    t.downhill = false ∧ t.f_x_best = fl.flowest ∧ fl.flowest ≤ t.f_x_cand := by
  obtain ⟨_, _, _, _, _, _, _, _, _, _, _, hi12, hi13, hi14⟩ := installed_spec s inp
  have hinst : (Anneal.installed s inp).downhill = false ∧
      (Anneal.installed s inp).f_x_best = fl.flowest ∧
      fl.flowest ≤ (Anneal.installed s inp).f_x_cand := by
    refine ⟨by rw [hi13]; exact hinv.1, by rw [hi12]; exact hinv.2.1, ?_⟩
    rcases hi14 with h | h
    · rw [h]; exact hinv.2.2
    · rw [h]; exact hinp
  rcases step_cases fl s inp t hstep with ⟨hsc, rfl⟩ | ⟨hsc, tc, hcore, rfl⟩
  · exact hinst
  · rcases step_core_cases fl _ inp tc hcore with ⟨s1, hcases, v, hv, hlen, htc⟩
    have hs1 : s1.downhill = false ∧ s1.f_x_best = fl.flowest ∧
        fl.flowest ≤ s1.f_x_cand := by
      rcases hcases with ⟨_, rfl⟩ | ⟨_, sr, hcr, rfl⟩
      · exact hinst
      · obtain ⟨_, _, _, _, _, hc6, hc7, hc8, _⟩ := complete_reanneal_spec fl _ sr hcr
        dsimp only
        exact ⟨by rw [hc6]; exact hinst.1, by rw [hc8]; exact hinst.2.1,
          by rw [hc7]; exact hinst.2.2⟩
    obtain ⟨_, _, _, _, _, _, _, _, _, _, _, hcf12, hcf13, hcf14, _⟩ :=
      cooling_schedule_frame fl s1
    obtain ⟨_, _, _, _, _, _, _, ha8, ha9, _, _, _, ha13, _⟩ :=
      acceptance_check_spec fl inp.u (Anneal.cooling_schedule fl s1)
    have hcool : (Anneal.cooling_schedule fl s1).f_x_best = fl.flowest ∧
        fl.flowest ≤ (Anneal.cooling_schedule fl s1).f_x_cand := by
      exact ⟨by rw [hcf12]; exact hs1.2.1, by rw [hcf13]; exact hs1.2.2⟩
    have hacc : (Anneal.acceptance_check fl inp.u
        (Anneal.cooling_schedule fl s1)).f_x_best = fl.flowest := by
      rcases ha13 with h | ⟨h, hlt⟩
      · rw [h]; exact hcool.1
      · rw [hcool.1] at hlt
        exact absurd (lt_of_le_of_lt hcool.2 hlt) (lt_irrefl _)
    obtain ⟨_, _, _, _, _, _, _, _, hf9, hf10, hf11, _⟩ := step_finish_spec tc
    have htcf : tc.downhill = false ∧ tc.f_x_best = fl.flowest ∧
        fl.flowest ≤ tc.f_x_cand := by
      subst htc
      dsimp only
      exact ⟨by rw [ha8, hcf14]; exact hs1.1, hacc, by rw [ha9, hcf13]; exact hs1.2.2⟩
    exact ⟨by rw [hf9]; exact htcf.1, by rw [hf11]; exact htcf.2.1,
      by rw [hf10]; exact htcf.2.2⟩

theorem run_f_x_best_le (fl : Flt) : ∀ (l : List StepInput) (s t : Anneal),
    Anneal.run_list fl s l = some t → t.f_x_best ≤ s.f_x_best
  | [], s, t => by
    intro h
    injection h with h2
    rw [h2]
  | inp :: rest, s, t => by
    intro h
    unfold Anneal.run_list at h
    rcases Option.bind_eq_some.mp h with ⟨s1, hstep, hrun⟩
    exact le_trans (run_f_x_best_le fl rest s1 t hrun) (step_f_x_best_le fl s inp s1 hstep)

theorem run_uphill_frozen (fl : Flt) : ∀ (l : List StepInput) (s t : Anneal),
    (∀ j ∈ l, fl.flowest ≤ j.f_x_cand) →
    Anneal.run_list fl s l = some t →
    (s.downhill = false ∧ s.f_x_best = fl.flowest ∧ fl.flowest ≤ s.f_x_cand) →
    t.downhill = false ∧ t.f_x_best = fl.flowest ∧ fl.flowest ≤ t.f_x_cand
  | [], s, t => by
    intro _ h hinv
    injection h with h2
    rw [← h2]
    exact hinv
  | inp :: rest, s, t => by
    intro hl h hinv
    unfold Anneal.run_list at h
    rcases Option.bind_eq_some.mp h with ⟨s1, hstep, hrun⟩
    exact run_uphill_frozen fl rest s1 t (fun j hj => hl j (List.mem_cons_of_mem _ hj))
      hrun (step_uphill_frozen fl s inp s1 hstep (hl inp (List.mem_cons_self _ _)) hinv)

/-- C3 (amended).  Monotonicity of the best objective over any run after
init(), as long as every caller-supplied objective value is at least the
lowest representable value of T (numeric_limits lowest, the init sentinel;
a C++ caller can violate this only by passing -infinity): in downhill mode
every change to f_x_best is a strict decrease and it never regresses; in
uphill mode f_x_best never changes at all — it stays at the lowest
sentinel, because the best-record update in acceptance_check compares with
< irrespective of the downhill flag. -/
theorem anneal_f_x_best_never_regresses (fl : Flt) (s0 : Anneal) (l : List StepInput)
    (s t : Anneal) (inp : StepInput)
    (hrun : Anneal.run_list fl (Anneal.init fl s0) l = some s)
    (hstep : Anneal.step fl s inp = some t)
    (hrep : s0.downhill = false →
      (∀ j ∈ l, fl.flowest ≤ j.f_x_cand) ∧ fl.flowest ≤ inp.f_x_cand) :
    (s0.downhill = true →
      t.f_x_best ≤ s.f_x_best ∧ (t.f_x_best ≠ s.f_x_best → t.f_x_best < s.f_x_best)) ∧
    (s0.downhill = false → t.f_x_best = s.f_x_best) := by
  constructor
  · intro _
    have hle := step_f_x_best_le fl s inp t hstep
    exact ⟨hle, fun hne => lt_of_le_of_ne hle hne⟩
  · intro hdown
    obtain ⟨hl, hinp⟩ := hrep hdown
    have hinit : (Anneal.init fl s0).downhill = false ∧
        (Anneal.init fl s0).f_x_best = fl.flowest ∧
        fl.flowest ≤ (Anneal.init fl s0).f_x_cand := by
      refine ⟨hdown, ?_, ?_⟩
      · show (if s0.downhill then fl.fmax else fl.flowest) = fl.flowest
        rw [hdown]
        simp
      · show fl.flowest ≤ (if s0.downhill then fl.fmax else fl.flowest)
        rw [hdown]
        simp
    have hs := run_uphill_frozen fl l _ s hl hrun hinit
    have ht := step_uphill_frozen fl s inp t hstep hinp hs
    rw [ht.2.1, hs.2.1]

def fl3 : Flt :=
  { exp := fun q => if 0 < q then 2 else 1, log := fun _ => -1,
    rpow := fun _ _ => 1, eps := 0, fmax := 1000, flowest := -1000 }

def s0c : Anneal := { Anneal.construct [0] [((-1 : ℚ), 1)] with downhill := false }

def a3 : Anneal := Anneal.init fl3 s0c

def inp3 : StepInput := { f_x_cand := -1001, u := 0, gen_draws := [[0]] }

def t3 : Anneal := (Anneal.step fl3 a3 inp3).getD {}

/-- Counterexample for C3 as stated: in uphill mode, a caller-supplied
objective below the lowest-representable sentinel (-1001 < -1000; the C++
counterpart is the caller storing -infinity in f_x_cand) is accepted, and
the mode-blind best-record update f_x_cand < f_x_best then moves f_x_best
from -1000 down to -1001 — a strictly worse value per the uphill flag,
where changes were claimed to be strict increases. -/
theorem anneal_uphill_f_x_best_regression_counterexample :
    s0c.downhill = false ∧ inp3.f_x_cand < fl3.flowest ∧
    (Anneal.step fl3 a3 inp3).isSome = true ∧
    t3.f_x_best < a3.f_x_best := by
  with_unfolding_all decide

def tW : Anneal := (Anneal.step flW aW inpW).getD {}

/-- Witness for the amended C3 on a concrete downhill run of one step. -/
theorem anneal_f_x_best_never_regresses_witness :
    ((Anneal.construct [0] [((-1 : ℚ), 1)]).downhill = true →
      tW.f_x_best ≤ aW.f_x_best ∧
      (tW.f_x_best ≠ aW.f_x_best → tW.f_x_best < aW.f_x_best)) ∧
    ((Anneal.construct [0] [((-1 : ℚ), 1)]).downhill = false →
      tW.f_x_best = aW.f_x_best) :=
  anneal_f_x_best_never_regresses flW (Anneal.construct [0] [((-1 : ℚ), 1)]) []
    aW tW inpW rfl
    (option_eq_some_getD _ _ (by with_unfolding_all decide))
    (fun h => absurd h (by with_unfolding_all decide))
